import Mathlib

/-!
Verification of the asset_bender version-resolution, retrying-fetch and
scaffold-assembly core (`asset_bender/http.py`, `asset_bender/bundling.py`).

Python strings are modelled as lists of characters (`PyStr`), Python `None`
vs. string values as `Option PyStr`, dictionaries as association lists, and
network behaviour as an oracle mapping a URL and an attempt number to the
outcome of `requests.get`.  Stateful resolution code threads an explicit
`ResolveState` and records cache and network interactions in an event log.
-/

namespace AssetBender

/-- Python `str`, modelled as a list of characters. -/
abbrev PyStr := List Char

/-- Build a `PyStr` from a Lean string literal. -/
def pstr (s : String) : PyStr := s.data

/-- Truthiness of a Python string: non-empty. -/
def truthyS (s : PyStr) : Bool := !s.isEmpty

/-- Truthiness of a Python value that is either `None` or a string. -/
def truthyO : Option PyStr → Bool
  | none => false
  | some s => !s.isEmpty

/-- Association-list lookup, modelling Python `dict.get(k)`. -/
def assocGet {κ ν : Type} [DecidableEq κ] : List (κ × ν) → κ → Option ν
  | [], _ => none
  | kv :: rest, k => if kv.1 = k then some kv.2 else assocGet rest k

/-- Association-list update, modelling Python `d[k] = v`. -/
def assocSet {κ ν : Type} [DecidableEq κ] : List (κ × ν) → κ → ν → List (κ × ν)
  | [], k, v => [(k, v)]
  | kv :: rest, k, v => if kv.1 = k then (k, v) :: rest else kv :: assocSet rest k v

/-- Python `dict.get(k, default)`. -/
def assocGetD {κ ν : Type} [DecidableEq κ] (d : List (κ × ν)) (k : κ) (dflt : ν) : ν :=
  (assocGet d k).getD dflt

/-- Python `s.split(sep)` for a one-character separator. -/
def splitOnChar (c : Char) : PyStr → List PyStr
  | [] => [[]]
  | x :: xs =>
    match splitOnChar c xs with
    | [] => [[]]
    | h :: t => if x = c then [] :: h :: t else (x :: h) :: t

/-- Python `sep.join(xs)`. -/
def joinS (sep : PyStr) : List PyStr → PyStr
  | [] => []
  | [x] => x
  | x :: xs => x ++ sep ++ joinS sep xs

/-- Decimal digit characters `'0'..'9'` (Python `str.isdigit` for ASCII). -/
def isDigitChar (c : Char) : Bool := 48 ≤ c.toNat && c.toNat ≤ 57

/-- Python `s.isdigit()`: non-empty and all digits. -/
def isDigitStr (s : PyStr) : Bool := !s.isEmpty && s.all isDigitChar

/-- Numeric value of a digit character. -/
def digitVal (c : Char) : Nat := c.toNat - 48

/-- Numeric value of a decimal digit string. -/
def decValue (s : PyStr) : Nat := s.foldl (fun a c => 10 * a + digitVal c) 0

/-- Python `int(s)` restricted to an optional sign followed by digits
(`int` also strips whitespace, which never occurs in build names). -/
def pyInt? (s : PyStr) : Option Int :=
  match s with
  | [] => none
  | c :: rest =>
    if c = '-' then (if isDigitStr rest then some (-(decValue rest : Int)) else none)
    else if c = '+' then (if isDigitStr rest then some ((decValue rest : Int)) else none)
    else if isDigitStr (c :: rest) then some ((decValue (c :: rest) : Int)) else none

/-- Python 2 `cmp` on integers. -/
def pyCmp (a b : Int) : Int := if a < b then -1 else if b < a then 1 else 0

/-- Python whitespace characters stripped by `str.strip()`. -/
def isPySpace (c : Char) : Bool := c.toNat = 32 || (9 ≤ c.toNat && c.toNat ≤ 13)

/-- Python `s.strip()`. -/
def pyStrip (s : PyStr) : PyStr :=
  ((s.dropWhile isPySpace).reverse.dropWhile isPySpace).reverse

/-- Python `s.upper()` (ASCII). -/
def pyUpper (s : PyStr) : PyStr := s.map Char.toUpper

/-! ## `asset_bender/http.py`: the retrying fetch layer -/

/-- A `requests` response as far as the code observes it. -/
structure Response where
  status_code : Int
  text : PyStr
deriving DecidableEq

/-- One of the transport exceptions (`ConnectionError`, `HTTPError`, `Timeout`,
`FauxException`).  `eid` identifies the exception object; `resp_status` is the
status of the HTTP exchange the exception arose from, when one was received
(`HTTPError` raised by `raise_for_status`) — the code never reads it. -/
structure TransportErr where
  eid : Nat
  resp_status : Option Int
deriving DecidableEq

/-- Outcome of one `_download_url` call: either a returned response (2xx) or a
raised transport exception. -/
inductive DlOutcome where
  | ok (r : Response)
  | err (e : TransportErr)
deriving DecidableEq

/-- The contents of a raised domain exception, keyed by its format string. -/
inductive ABMsg where
  /-- "Server error from Asset Bender (%s) for: %s" -/
  | serverError (status : Int) (url : PyStr)
  /-- "Url doesn't exist in Asset Bender (%s): %s" -/
  | notFound (status : Int) (url : PyStr)
  /-- "Asset Bender returned error (%s) for: %s" -/
  | clientError (status : Int) (url : PyStr)
  /-- "Invalid version file (empty) from: %s" -/
  | emptyVersionFile (url : PyStr)
  /-- "Could not find a build version for %s" -/
  | couldNotFindBuild (project : PyStr)
deriving DecidableEq

/-- A raised Python exception as far as the claims observe it. -/
inductive PyErr where
  /-- `AssetBenderException(msg, e)` (the second argument when present). -/
  | assetBender (m : ABMsg) (wrapped : Option TransportErr)
  /-- `BundleException(msg)`. -/
  | bundle (m : ABMsg)
  /-- The original transport exception re-raised unchanged (`raise e`). -/
  | transport (e : TransportErr)
  /-- Python `AttributeError`. -/
  | attributeError
  /-- Python `IndexError`. -/
  | indexError
  /-- Python `TypeError`. -/
  | typeError
deriving DecidableEq

/-- Python 2 `None >= n` is `False` (`None` is smaller than every int). -/
def pyGeN : Option Int → Int → Bool
  | none, _ => false
  | some v, n => n ≤ v

/-- Python 2 `None < n` is `True`. -/
def pyLtN : Option Int → Int → Bool
  | none, _ => true
  | some v, n => v < n

/-- The `while attempt <= retries` loop of `fetch_ab_url_with_retries`,
iterated over the list of remaining attempt numbers.  Returns the result
(or raised exception) together with the trace of `(attempt, timeout)` pairs
actually used.  `latest` is the `latest_result` local variable: it is only
ever assigned on a successful `_download_url` return. -/
def fetchLoop (dl : Nat → DlOutcome) (url : PyStr) (timeouts : List (Option Nat))
    (retries : Nat) : List Nat → Option Response →
    Except PyErr (Option Response) × List (Nat × Option Nat)
  | [], latest => (.ok latest, [])
  | attempt :: rest, latest =>
    match timeouts.get? (min timeouts.length attempt - 1) with
    | none => (.error .indexError, [])
    | some timeout =>
      match dl attempt with
      | .ok r => (.ok (some r), [(attempt, timeout)])
      | .err e =>
        let status : Option Int := latest.map Response.status_code
        if attempt < retries then
          let next := fetchLoop dl url timeouts retries rest latest
          (next.1, (attempt, timeout) :: next.2)
        else if pyGeN status 500 then
          (.error (.assetBender (.serverError (status.getD 0) url) (some e)),
            [(attempt, timeout)])
        else if status = some 404 ∨ status = some 410 then
          (.error (.assetBender (.notFound (status.getD 0) url) (some e)),
            [(attempt, timeout)])
        else if status.isSome && (pyGeN status 400 || pyLtN status 200) then
          (.error (.assetBender (.clientError (status.getD 0) url) (some e)),
            [(attempt, timeout)])
        else
          (.error (.transport e), [(attempt, timeout)])

/-- `fetch_ab_url_with_retries(url, retries, timeouts)`.  The network is an
oracle `dl` giving the outcome of the attempt with each attempt number.
When `retries` is given but `timeouts` is `None`, `timeouts[...]` raises a
`TypeError` on the first attempt. -/
def fetch_ab_url_with_retries (dl : Nat → DlOutcome) (url : PyStr)
    (retriesOpt : Option Nat) (timeoutsOpt : Option (List (Option Nat))) :
    Except PyErr (Option Response) × List (Nat × Option Nat) :=
  match retriesOpt, timeoutsOpt with
  | none, none => fetchLoop dl url [none] 1 (List.range' 1 1) none
  | none, some ts => fetchLoop dl url ts ts.length (List.range' 1 ts.length) none
  | some r, some ts => fetchLoop dl url ts r (List.range' 1 r) none
  | some r, none => if r = 0 then (.ok none, []) else (.error .typeError, [])

/-! ## Version comparison and the maximum-version rule
(`S3BundleFetcher._compare_build_names`, `_maximum_version_of`) -/

/-- The literal prefix `"static-"` of a specific build name. -/
def staticPfx : PyStr := pstr "static-"

/-- `BundleFetcherBase._is_specific_build_name`: a string starting with `"static-"`. -/
def is_specific_build_name (b : PyStr) : Bool := staticPfx.isPrefixOf b

/-- Fuel-driven core of Python `s.replace(pat, rep)` (replaces every
occurrence, scanning left to right).  The fuel is an upper bound on the
length of the remaining input. -/
def replaceAllAux (pat rep : PyStr) : Nat → PyStr → PyStr
  | 0, s => s
  | fuel + 1, s =>
    if !pat.isEmpty && pat.isPrefixOf s then
      rep ++ replaceAllAux pat rep fuel (s.drop pat.length)
    else
      match s with
      | [] => []
      | c :: cs => c :: replaceAllAux pat rep fuel cs

/-- Python `s.replace(pat, rep)` (for a non-empty pattern, the only use). -/
def pyReplace (s pat rep : PyStr) : PyStr := replaceAllAux pat rep s.length s

/-- `tuple(map(int, build.replace('static-', '').split('.')))` — `none` when
some component is not an integer (Python `int()` raising `ValueError`). -/
def parseBuildInts (b : PyStr) : Option (List Int) :=
  (splitOnChar '.' (pyReplace b staticPfx [])).mapM pyInt?

/-- `S3BundleFetcher._compare_build_names`: compare parsed `(major, minor)`
pairs, major first, then minor.  `none` models a raised exception (a build
that does not parse, or a missing minor component when the majors tie). -/
def compare_build_names (x_build y_build : PyStr) : Option Int := do
  let xs ← parseBuildInts x_build
  let ys ← parseBuildInts y_build
  let x0 ← xs.get? 0
  let y0 ← ys.get? 0
  let major_cmp := pyCmp x0 y0
  if major_cmp ≠ 0 then
    pure major_cmp
  else do
    let x1 ← xs.get? 1
    let y1 ← ys.get? 1
    pure (pyCmp x1 y1)

/-- A specific build name `static-<dM>.<dm>` built from two digit strings. -/
def mkBuild (dM dm : PyStr) : PyStr := staticPfx ++ dM ++ '.' :: dm

/-- Insert into a sorted list using a Python comparator (`none` models the
comparator raising).  Mirrors the stable insertion done by Python's
comparator sort: an element goes after everything it does not strictly
precede. -/
def insertSortedCmp (cmp : PyStr → PyStr → Option Int) (x : PyStr) :
    List PyStr → Option (List PyStr)
  | [] => some [x]
  | y :: ys =>
    match cmp x y with
    | none => none
    | some c =>
      if c < 0 then some (x :: y :: ys)
      else (insertSortedCmp cmp x ys).map (y :: ·)

/-- Left fold of `insertSortedCmp` over the input list (a stable sort with a
Python comparator, as `sorted(list, cmp=...)`). -/
def sortFold (cmp : PyStr → PyStr → Option Int) :
    List PyStr → List PyStr → Option (List PyStr)
  | acc, [] => some acc
  | acc, x :: xs =>
    match insertSortedCmp cmp x acc with
    | none => none
    | some acc2 => sortFold cmp acc2 xs

/-- `sorted(args, cmp=self._compare_build_names)`. -/
def pySortedCmp (cmp : PyStr → PyStr → Option Int) (l : List PyStr) :
    Option (List PyStr) :=
  sortFold cmp [] l

/-- `S3BundleFetcher._maximum_version_of`: drop falsy arguments, sort by the
build comparator, pop the last element.  `none` models the raised exception
(`IndexError` from popping an empty list, or the comparator raising). -/
def maximum_version_of (args : List PyStr) : Option PyStr :=
  let args2 := args.filter (fun a => !a.isEmpty)
  match pySortedCmp compare_build_names args2 with
  | none => none
  | some sorted => sorted.getLast?

/-! ## `S3BundleFetcher._split_bundle_path` and its regular expression
`^/?([^/]+)/(static(?:-\d+.\d+)?)/(.*)` (note the unescaped dot: `.` there
matches any character except a newline). -/

/-- The candidate splits of a leading digit run, longest first — the
backtracking order of a greedy `\d+`. -/
def digitSplits (s : PyStr) : List (PyStr × PyStr) :=
  let run := s.takeWhile isDigitChar
  (List.range run.length).map (fun i => (s.take (run.length - i), s.drop (run.length - i)))

/-- Backtracking match of `-\d+.\d+` followed by the literal `/`, at the head
of `s`.  Returns the characters matched by `-\d+.\d+` and the remainder after
the `/`.  The `.` is the regex any-character (except newline). -/
def matchDashVerSlash (s : PyStr) : Option (PyStr × PyStr) :=
  match s with
  | [] => none
  | c0 :: r1 =>
    if c0 = '-' then
      (digitSplits r1).findSome? (fun d1r2 =>
        match d1r2.2 with
        | [] => none
        | c :: r3 =>
          if c = '\n' then none
          else
            (digitSplits r3).findSome? (fun d2r4 =>
              match d2r4.2 with
              | [] => none
              | c4 :: r5 =>
                if c4 = '/' then some ('-' :: (d1r2.1 ++ c :: d2r4.1), r5)
                else none))
    else none

/-- `S3BundleFetcher._split_bundle_path`: `(project, hardcoded version or
`none`, subpath)`.  A `none` result models the regex not matching, in which
case `match.group(...)` raises `AttributeError` on the `None` match object. -/
def split_bundle_path (bundle_path : PyStr) : Option (PyStr × Option PyStr × PyStr) :=
  let s := if bundle_path.head? = some '/' then bundle_path.tail else bundle_path
  let g1 := s.takeWhile (fun c => c ≠ '/')
  if g1.isEmpty then none
  else
    let after := s.drop g1.length
    if after.head? = some '/' then
      let r1 := after.tail
      if (pstr "static").isPrefixOf r1 then
        let r2 := r1.drop 6
        match matchDashVerSlash r2 with
        | some verRest =>
          some (g1, some (pstr "static" ++ verRest.1), verRest.2.takeWhile (fun c => c ≠ '\n'))
        | none =>
          if r2.head? = some '/' then some (g1, none, r2.tail.takeWhile (fun c => c ≠ '\n'))
          else none
      else none
    else none

/-! ## `BundleFetcherBase._append_static_domain_to_links` and its regular
expression `((?:src|href)=(['"]))([^'"]+\2)` with replacement `\1//<domain>\3`. -/

/-- Quote characters of the regex character class `['"]`. -/
def isQuoteChar (c : Char) : Bool := c = '\'' || c = '"'

/-- Match `(?:src|href)=(['"])[^'"]+\1` at the head of `s` for one key.
Returns the replacement text `\1//<dom>\3` and the remainder after the match.
A greedy `[^'"]+` followed by the back-reference succeeds exactly when the
maximal quote-free run is non-empty and followed by the opening quote. -/
def tryMatchKey (dom key s : PyStr) : Option (PyStr × PyStr) :=
  if key.isPrefixOf s then
    match s.drop key.length with
    | [] => none
    | q :: rest =>
      if isQuoteChar q then
        if (rest.takeWhile (fun c => !isQuoteChar c)).isEmpty then none
        else
          match rest.drop (rest.takeWhile (fun c => !isQuoteChar c)).length with
          | [] => none
          | q2 :: rest2 =>
            if q2 = q then
              some (key ++ q ::
                (pstr "//" ++ dom ++ rest.takeWhile (fun c => !isQuoteChar c) ++ [q]), rest2)
            else none
      else none
  else none

/-- Try the alternation `src=` then `href=` at the head of `s`. -/
def tryMatchSrcHref (dom s : PyStr) : Option (PyStr × PyStr) :=
  match tryMatchKey dom (pstr "src=") s with
  | some r => some r
  | none => tryMatchKey dom (pstr "href=") s

/-- Fuel-driven scan of `re.sub`: at each position try to match; on a match
emit the replacement and continue after it, otherwise copy one character. -/
def subSrcHrefAux (dom : PyStr) : Nat → PyStr → PyStr
  | 0, s => s
  | fuel + 1, s =>
    match tryMatchSrcHref dom s with
    | some repRest => repRest.1 ++ subSrcHrefAux dom fuel repRest.2
    | none =>
      match s with
      | [] => []
      | c :: cs => c :: subSrcHrefAux dom fuel cs

/-- `BundleFetcherBase._append_static_domain_to_links`, with the fetcher's
domain passed explicitly (`self.get_domain()`). -/
def append_static_domain_to_links (dom html : PyStr) : PyStr :=
  subSrcHrefAux dom html.length html

/-! ## `S3BundleFetcher`: version resolution with caches

The settings, the three JSON manifest files and the network are captured in a
`BundlingEnv`; the per-request memo and the durable (memcache) version cache
are threaded as a `ResolveState`, together with an event log recording every
cache and network interaction. -/

/-- Configuration, manifest data and network behaviour visible to a
fetcher instance. -/
structure BundlingEnv where
  /-- `PROJ_NAME` setting (`None` when unset). -/
  hostProject : Option PyStr
  /-- Debug mode (`-expanded` bundles). -/
  isDebug : Bool
  /-- The `ENV` setting (e.g. `"prod"`, `"qa"`, `"local"`). -/
  envName : PyStr
  /-- `BENDER_CDN_DOMAIN` (with its default applied), i.e. `get_domain()`. -/
  cdnDomain : PyStr
  /-- `BENDER_S3_DOMAIN` (with its default applied), i.e. `_get_non_cdn_domain()`. -/
  s3Domain : PyStr
  /-- The `deps` object of `static/static_conf.json` (empty when the file is missing). -/
  staticConfDeps : List (PyStr × PyStr)
  /-- The `build` key of `static/prebuilt_recursive_static_conf.json`, if present. -/
  prebuiltBuild : Option PyStr
  /-- The `deps` object of `static/prebuilt_recursive_static_conf.json`. -/
  prebuiltDeps : List (PyStr × PyStr)
  /-- `static/frozen_at_deploy_version_snapshot.json`. -/
  frozenSnapshot : List (PyStr × PyStr)
  /-- `os.environ`. -/
  osEnviron : List (PyStr × PyStr)
  /-- Network oracle: outcome of `requests.get` per URL and attempt number. -/
  download : PyStr → Nat → DlOutcome

/-- Observable cache/network interactions of the resolution code. -/
inductive REvent where
  /-- Read of the per-request memo for a project. -/
  | memoRead (project : PyStr)
  /-- Write of the per-request memo. -/
  | memoWrite (project value : PyStr)
  /-- `project_version_cache.get(project=..., host_project=...)`. -/
  | durableRead (project : PyStr) (host : Option PyStr)
  /-- `project_version_cache.set(value, project=..., host_project=...)`. -/
  | durableWrite (project : PyStr) (host : Option PyStr) (value : PyStr)
  /-- Network fetch of a version pointer file. -/
  | pointerFetch (url : PyStr)
  /-- Network fetch of a bundle's include HTML. -/
  | bundleFetch (url : PyStr)
deriving DecidableEq

/-- Mutable state threaded through a resolution session. -/
structure ResolveState where
  /-- `self.per_request_project_build_version_cache`. -/
  perRequest : List (PyStr × PyStr)
  /-- The durable memcache version cache, keyed by `(project, host_project)`. -/
  durable : List ((PyStr × Option PyStr) × PyStr)
  /-- Log of interactions, in order. -/
  events : List REvent
deriving DecidableEq

/-- `fetch_ab_url_with_retries(url, timeouts=[1, 2, 5])` as used by the
bundling code: only the returned response or raised exception is observed. -/
def bundlingFetch (env : BundlingEnv) (url : PyStr) : Except PyErr Response :=
  match (fetch_ab_url_with_retries (env.download url) url none
      (some [some 1, some 2, some 5])).1 with
  | .error e => .error e
  | .ok (some r) => .ok r
  | .ok none => .error .attributeError

/-- `S3BundleFetcher.make_url_to_pointer`. -/
def make_url_to_pointer (env : BundlingEnv) (pointer project_name : PyStr) : PyStr :=
  let ptr := if isDigitStr pointer then pstr "latest-version-" ++ pointer else pointer
  let url := pstr "http://" ++ env.s3Domain ++ pstr "/" ++ project_name ++ pstr "/" ++ ptr
  if env.envName ≠ pstr "prod" then url ++ pstr "-qa" else url

/-- `S3BundleFetcher._fetch_version_from_version_pointer`.  On an empty
response body the code calls `self._check_for_fetch_html_errors_and_raise_exception`,
a method that does not exist on the class, so Python raises `AttributeError`
before the `AssetBenderException` line is reached. -/
def fetch_version_from_version_pointer (env : BundlingEnv) (pointer project_name : PyStr)
    (st : ResolveState) : Except PyErr PyStr × ResolveState :=
  let url := make_url_to_pointer env pointer project_name
  let st := { st with events := st.events ++ [.pointerFetch url] }
  match bundlingFetch env url with
  | .error e => (.error e, st)
  | .ok r =>
    if !truthyS r.text then (.error .attributeError, st)
    else (.ok (pyStrip r.text), st)

/-- `S3BundleFetcher._get_prebuilt_version`. -/
def get_prebuilt_version (env : BundlingEnv) (project_name : PyStr) : PyStr :=
  if env.hostProject = some project_name then
    match env.prebuiltBuild with
    | some b => if truthyS b then pstr "static-" ++ b else []
    | none => []
  else assocGetD env.prebuiltDeps project_name []

/-- `S3BundleFetcher._get_frozen_at_deploy_version`. -/
def get_frozen_at_deploy_version (env : BundlingEnv) (project_name : PyStr) : PyStr :=
  assocGetD env.frozenSnapshot project_name []

/-- `S3BundleFetcher._get_version_from_static_conf` (the error log for a
missing dependency entry is not modelled). -/
def get_version_from_static_conf (env : BundlingEnv) (project_name : PyStr) : PyStr :=
  assocGetD env.staticConfDeps project_name (pstr "current")

/-- `S3BundleFetcher._fetch_local_project_build_version`.  `none` models
Python `None` (from `os.environ.get`), `some []` the initial `''`. -/
def fetch_local_project_build_version (env : BundlingEnv) (project_name : PyStr) :
    Option PyStr :=
  if env.hostProject = some project_name then
    let bv := get_prebuilt_version env project_name
    if truthyS bv then some bv
    else assocGet env.osEnviron
      (pstr "HS_BENDER_FORCED_BUILD_VERSION_" ++ pyUpper project_name)
  else some []

/-- `S3BundleFetcher._fetch_build_version_without_cache` (the info log is not
modelled).  A `none` from `_maximum_version_of` is a raised exception. -/
def fetch_build_version_without_cache (env : BundlingEnv) (project_name : PyStr)
    (st : ResolveState) : Except PyErr PyStr × ResolveState :=
  let static_conf_version := get_version_from_static_conf env project_name
  if is_specific_build_name static_conf_version then (.ok static_conf_version, st)
  else
    match fetch_version_from_version_pointer env static_conf_version project_name st with
    | (.error e, st) => (.error e, st)
    | (.ok pointer_build_version, st) =>
      let prebuilt_build_version := get_prebuilt_version env project_name
      let frozen_by_deploy_version := get_frozen_at_deploy_version env project_name
      match maximum_version_of
          [pointer_build_version, prebuilt_build_version, frozen_by_deploy_version] with
      | none => (.error .indexError, st)
      | some build_version => (.ok build_version, st)

/-- `S3BundleFetcher._fetch_build_version`: fixed local version first, then
the per-request memo, then the durable cache, then the origin sources; on
success the durable cache and the memo are both populated. -/
def fetch_build_version (env : BundlingEnv) (project_name : PyStr)
    (st : ResolveState) : Except PyErr PyStr × ResolveState :=
  let localv := fetch_local_project_build_version env project_name
  if truthyO localv then (.ok (localv.getD []), st)
  else
    let memo := assocGet st.perRequest project_name
    let st := { st with events := st.events ++ [.memoRead project_name] }
    if truthyO memo then (.ok (memo.getD []), st)
    else
      let cached := assocGet st.durable (project_name, env.hostProject)
      let st := { st with events := st.events ++ [.durableRead project_name env.hostProject] }
      match (if truthyO cached then
               ((.ok (cached.getD []), st) : Except PyErr PyStr × ResolveState)
             else fetch_build_version_without_cache env project_name st) with
      | (.error e, st) => (.error e, st)
      | (.ok build_version, st) =>
        if !truthyS build_version then
          (.error (.bundle (.couldNotFindBuild project_name)), st)
        else
          let st := { st with
            durable := assocSet st.durable (project_name, env.hostProject) build_version,
            events := st.events ++ [REvent.durableWrite project_name env.hostProject build_version] }
          let st := { st with
            perRequest := assocSet st.perRequest project_name build_version,
            events := st.events ++ [REvent.memoWrite project_name build_version] }
          (.ok build_version, st)

/-- Loop body of `BundleFetcherBase._add_forced_versions_to_per_request_cache`. -/
def add_forced_versions_go (env : BundlingEnv) :
    List (PyStr × PyStr) → ResolveState → Except PyErr Unit × ResolveState
  | [], st => (.ok (), st)
  | (dep_name, dep_value) :: rest, st =>
    if is_specific_build_name dep_value then
      add_forced_versions_go env rest
        { st with perRequest := assocSet st.perRequest dep_name dep_value }
    else
      match fetch_version_from_version_pointer env dep_value dep_name st with
      | (.error e, st) => (.error e, st)
      | (.ok bv, st) =>
        add_forced_versions_go env rest
          { st with perRequest := assocSet st.perRequest dep_name bv }

/-- `BundleFetcherBase._add_forced_versions_to_per_request_cache`, run at
construction time over the forced-version map (`None` or a dict). -/
def add_forced_versions_to_per_request_cache (env : BundlingEnv)
    (forced : Option (List (PyStr × PyStr))) (st : ResolveState) :
    Except PyErr Unit × ResolveState :=
  match forced with
  | none => (.ok (), st)
  | some items => if items.isEmpty then (.ok (), st) else add_forced_versions_go env items st

/-- `S3BundleFetcher.fetch_include_html` (the `LOG_S3_FETCHES` log is not
modelled). -/
def s3_fetch_include_html (env : BundlingEnv) (bundle_path : PyStr)
    (st : ResolveState) : Except PyErr PyStr × ResolveState :=
  match split_bundle_path bundle_path with
  | none => (.error .attributeError, st)
  | some parts =>
    let project_name := parts.1
    let bundle_postfix_path := parts.2.2
    match (match parts.2.1 with
           | some hardcoded_version =>
             ((.ok hardcoded_version, st) : Except PyErr PyStr × ResolveState)
           | none => fetch_build_version env project_name st) with
    | (.error e, st) => (.error e, st)
    | (.ok build_version, st) =>
      let url := pstr "http://" ++ env.cdnDomain ++ pstr "/" ++ project_name ++ pstr "/"
        ++ build_version ++ pstr "/" ++ bundle_postfix_path ++ pstr ".bundle"
        ++ (if env.isDebug then pstr "-expanded" else []) ++ pstr ".html"
      let st := { st with events := st.events ++ [.bundleFetch url] }
      match bundlingFetch env url with
      | .error e => (.error e, st)
      | .ok result => (.ok (append_static_domain_to_links env.cdnDomain result.text), st)

/-! ## `Scaffold` -/

/-- `Scaffold.MAX_IE_CSS_INCLUDES`. -/
def MAX_IE_CSS_INCLUDES : Nat := 20

/-- `Scaffold.MAX_IMPORTS_PER_STYLE_ELEMENT`. -/
def MAX_IMPORTS_PER_STYLE_ELEMENT : Nat := 25

/-- The `Scaffold` object: ordered buckets of HTML lines. -/
structure Scaffold where
  head_js : List PyStr
  head_css : List PyStr
  footer_js : List PyStr
  force_normal_include : Bool
deriving DecidableEq

/-- A fresh `Scaffold(force_normal_include)`. -/
def Scaffold.init (force_normal_include : Bool) : Scaffold :=
  ⟨[], [], [], force_normal_include⟩

/-- `Scaffold.add_head_css_html`: `self.head_css += html.split('\n')`. -/
def Scaffold.add_head_css_html (s : Scaffold) (html : PyStr) : Scaffold :=
  { s with head_css := s.head_css ++ splitOnChar '\n' html }

/-- `Scaffold.total_css_files`. -/
def Scaffold.total_css_files (s : Scaffold) : Nat := s.head_css.length

/-- `Scaffold.header_css_html`. -/
def Scaffold.header_css_html (s : Scaffold) : PyStr :=
  if s.force_normal_include then joinS (pstr "\n") s.head_css
  else joinS (pstr "\n") (s.head_css.take MAX_IE_CSS_INCLUDES)

/-- `Scaffold.has_excess_stylesheets_for_IE`. -/
def Scaffold.has_excess_stylesheets_for_IE (s : Scaffold) : Bool :=
  decide (s.total_css_files > MAX_IE_CSS_INCLUDES) && !s.force_normal_include

/-- Index of the first occurrence of `sub` in `s` at or after offset `i`
(Python `str.index` / `str.find`). -/
def indexOfSubAux (sub : PyStr) : PyStr → Nat → Option Nat
  | [], i => if sub.isEmpty then some i else none
  | c :: cs, i =>
    if sub.isPrefixOf (c :: cs) then some i else indexOfSubAux sub cs (i + 1)

/-- Python `s.index(sub)` as an `Option` (`none` = raised `ValueError`). -/
def strFind (s sub : PyStr) : Option Nat := indexOfSubAux sub s 0

/-- Python `s.index(ch, start)` as an `Option`. -/
def strFindCharFrom (s : PyStr) (ch : Char) (start : Nat) : Option Nat :=
  (List.findIdx? (fun c => c = ch) (s.drop start)).map (· + start)

/-- `Scaffold._convert_link_to_import`: extract the quoted `href` value and
wrap it in `@import "...";`; any failure is caught by the bare `except` and
yields the empty string. -/
def Scaffold.convert_link_to_import (link_html : PyStr) : PyStr :=
  match strFind link_html (pstr "href=") with
  | none => []
  | some i =>
    let left_index := i + 6
    match link_html.get? (left_index - 1) with
    | none => []
    | some quote_char =>
      match strFindCharFrom link_html quote_char left_index with
      | none => []
      | some right_index =>
        pstr "@import \x22" ++ (link_html.take right_index).drop left_index ++ pstr "\x22;"

/-- Fuel-driven core of `chunk(n, iterable, padvalue=None)`
(`izip_longest(*[iter(iterable)]*n)`): groups of `n`, the last group padded
with `None`; an empty iterable yields no groups. -/
def chunkPadAux (n : Nat) : Nat → List PyStr → List (List (Option PyStr))
  | 0, _ => []
  | _, [] => []
  | fuel + 1, l =>
    ((l.take n).map some ++ List.replicate (n - l.length) none) :: chunkPadAux n fuel (l.drop n)

/-- `chunk(n, iterable)` with `None` padding. -/
def chunkPad (n : Nat) (l : List PyStr) : List (List (Option PyStr)) :=
  chunkPadAux n l.length l

/-- Python `filter(None, lines)` over `None`-or-string elements: keep the
truthy ones (drops both the padding and empty strings). -/
def pyFilterTruthy (l : List (Option PyStr)) : List PyStr :=
  l.filterMap (fun o => if truthyO o then o else none)

/-- `Scaffold.header_forced_import_css_html_for_IE`. -/
def Scaffold.header_forced_import_css_html_for_IE (s : Scaffold) : PyStr :=
  if s.has_excess_stylesheets_for_IE then
    let import_lines := (s.head_css.drop MAX_IE_CSS_INCLUDES).map Scaffold.convert_link_to_import
    let chunked := chunkPad MAX_IMPORTS_PER_STYLE_ELEMENT import_lines
    let chunked_strs := chunked.map (fun lines => joinS (pstr "\n") (pyFilterTruthy lines))
    joinS (pstr "\n\n")
      (chunked_strs.map (fun c => pstr "<style>\n" ++ c ++ pstr "\n</style>"))
  else []

/-! ## The generational cache and `invalidate_cache_for_deploy`

Modelled from the spec: `CustomUseGenCache` comes from the external
`hscacheutils` package (not part of this repository).  Per §4.2 of the spec it
is a generational cache over named buckets: an entry is stored under its full
parameter assignment; `invalidate(bucket, param=value)` invalidates exactly
the entries whose value for that bucket's parameter matches, and an
invalidation with the bucket's parameter left unbound (or a bucket that binds
no parameter) acts as a wildcard clearing every entry of the cache. -/

/-- Modelled from the spec: one stored entry of a generational cache — its
named parameters and its value. -/
structure GenCacheEntry (α : Type) where
  params : List (PyStr × PyStr)
  value : α
deriving DecidableEq

/-- Modelled from the spec: `cache.invalidate(bucket, **given)` for a cache
whose bucket declarations are `buckets` (bucket name ↦ the parameter it
binds, if any). -/
def genCacheInvalidate {α : Type} (buckets : List (PyStr × Option PyStr))
    (bucketName : PyStr) (given : List (PyStr × PyStr))
    (entries : List (GenCacheEntry α)) : List (GenCacheEntry α) :=
  match assocGet buckets bucketName with
  | none => entries
  | some none => []
  | some (some paramName) =>
    match assocGet given paramName with
    | none => []
    | some v => entries.filter (fun e => assocGet e.params paramName ≠ some v)

/-- The bucket declarations of `project_version_cache`. -/
def projectVersionBuckets : List (PyStr × Option PyStr) :=
  [(pstr "static_build_name_for:project", some (pstr "project")),
   (pstr "static_deps_for_project:host_project", some (pstr "host_project"))]

/-- The bucket declarations of `scaffold_cache`. -/
def scaffoldBuckets : List (PyStr × Option PyStr) :=
  [(pstr "bender_all_scaffolds", none),
   (pstr "bender_scaffold_for_project:scaffold_key", some (pstr "scaffold_key"))]

/-- `invalidate_cache_for_deploy(project_name)`, acting on the entries of the
two module-level caches. -/
def invalidate_cache_for_deploy {α β : Type} (project_name : PyStr)
    (pv : List (GenCacheEntry α)) (sc : List (GenCacheEntry β)) :
    List (GenCacheEntry α) × List (GenCacheEntry β) :=
  let pv := genCacheInvalidate projectVersionBuckets
    (pstr "static_build_name_for:project") [(pstr "project", project_name)] pv
  let pv := genCacheInvalidate projectVersionBuckets
    (pstr "static_deps_for_project:host_project") [(pstr "host_project", project_name)] pv
  let sc := genCacheInvalidate scaffoldBuckets (pstr "bender_all_scaffolds") [] sc
  (pv, sc)

/-! ## Support lemmas -/

theorem get?_min_sub_one_isSome (ts : List (Option Nat)) (hts : ts ≠ []) (a : Nat) :
    ∃ t, ts[min ts.length a - 1]? = some t := by
  have hlen : 0 < ts.length := List.length_pos.mpr hts
  have hidx : min ts.length a - 1 < ts.length := by
    have := Nat.min_le_left ts.length a
    omega
  exact ⟨_, List.getElem?_eq_getElem hidx⟩

/-- Whatever the outcomes, `fetchLoop` makes at most one attempt per pending
attempt number, and every attempt `i` in the trace used
`timeouts[min(len(timeouts), i) - 1]`. -/
theorem fetchLoop_trace_spec (dl : Nat → DlOutcome) (url : PyStr)
    (ts : List (Option Nat)) (retries : Nat) (hts : ts ≠ []) :
    ∀ (l : List Nat) (latest : Option Response),
      (fetchLoop dl url ts retries l latest).2.length ≤ l.length ∧
      ∀ p ∈ (fetchLoop dl url ts retries l latest).2,
        p.1 ∈ l ∧ ts[min ts.length p.1 - 1]? = some p.2 := by
  intro l
  induction l with
  | nil => intro latest; simp [fetchLoop]
  | cons a rest ih =>
    intro latest
    obtain ⟨t, ht⟩ := get?_min_sub_one_isSome ts hts a
    cases hdl : dl a with
    | ok r =>
      refine ⟨?_, ?_⟩ <;> simp [fetchLoop, List.get?_eq_getElem?, ht, hdl]
    | err e =>
      by_cases hlt : a < retries
      · have h1 := (ih latest).1
        have h2 := (ih latest).2
        refine ⟨?_, ?_⟩
        · simp only [fetchLoop, List.get?_eq_getElem?, ht, hdl, if_pos hlt]
          simpa using Nat.succ_le_succ h1
        · simp only [fetchLoop, List.get?_eq_getElem?, ht, hdl, if_pos hlt]
          intro p hp
          rcases List.mem_cons.mp hp with heq | hmem
          · subst heq; exact ⟨List.mem_cons_self _ _, ht⟩
          · exact ⟨List.mem_cons_of_mem _ (h2 p hmem).1, (h2 p hmem).2⟩
      · refine ⟨?_, ?_⟩ <;>
          simp only [fetchLoop, List.get?_eq_getElem?, ht, hdl, if_neg hlt] <;>
          split_ifs <;> simp_all

/-! ## Claim theorems -/

/-- C1.  The spec claims that when the last attempt of
`fetch_ab_url_with_retries` fails and an HTTP status is available, the raised
error is classified by that status (≥ 500 server error, 404/410 not found,
other non-2xx client error).  In the code, `status_code` is read from
`latest_result`, which is assigned only when `_download_url` *returns*
(whereupon the function immediately returns), so in every `except` block it
is still `None`: the classification branches are dead code and the transport
error is always re-raised unchanged.  Here an attempt whose HTTP exchange
carried status 500 (and one with 404) still re-raises the original
`HTTPError` instead of raising the classified `AssetBenderException`. -/
theorem fetch_retries_reraises_despite_status :
    fetch_ab_url_with_retries (fun _ => .err ⟨0, some 500⟩) (pstr "u") none (some [some 1])
      = (.error (.transport ⟨0, some 500⟩), [(1, some 1)])
    ∧ fetch_ab_url_with_retries (fun _ => .err ⟨1, some 404⟩) (pstr "u") none (some [some 1])
      = (.error (.transport ⟨1, some 404⟩), [(1, some 1)]) :=
  ⟨rfl, rfl⟩

/-- C3.  With a timeouts list of length `n` and no explicit retry count,
`fetch_ab_url_with_retries` makes at most `n` attempts and attempt `i` uses
`timeouts[min(i, n) - 1]`; with `timeouts=[1,2,5]` and a source failing twice
then succeeding, exactly the 3 attempts with timeouts 1, 2, 5 occur in order
and the success value is returned; with `timeouts=[1]` and an always-failing
source, exactly 1 attempt occurs and the call fails. -/
theorem fetch_retries_timeout_schedule (dl : Nat → DlOutcome)
    (ts : List (Option Nat)) (url : PyStr) (r : Response) (e : TransportErr)
    (hts : ts ≠ []) :
    ((fetch_ab_url_with_retries dl url none (some ts)).2.length ≤ ts.length
      ∧ ∀ p ∈ (fetch_ab_url_with_retries dl url none (some ts)).2,
          ts[min p.1 ts.length - 1]? = some p.2)
    ∧ fetch_ab_url_with_retries (fun a => if a ≤ 2 then .err e else .ok r) url none
        (some [some 1, some 2, some 5])
      = (.ok (some r), [(1, some 1), (2, some 2), (3, some 5)])
    ∧ fetch_ab_url_with_retries (fun _ => .err e) url none (some [some 1])
      = (.error (.transport e), [(1, some 1)]) := by
  refine ⟨?_, rfl, rfl⟩
  have h := fetchLoop_trace_spec dl url ts ts.length hts (List.range' 1 ts.length) none
  have hunfold : fetch_ab_url_with_retries dl url none (some ts)
      = fetchLoop dl url ts ts.length (List.range' 1 ts.length) none := rfl
  rw [hunfold]
  refine ⟨by simpa using h.1, fun p hp => ?_⟩
  have := (h.2 p hp).2
  rwa [Nat.min_comm] at this

/-- Witness for C3 at concrete inputs. -/
theorem fetch_retries_timeout_schedule_witness :
    ((fetch_ab_url_with_retries (fun _ => .err ⟨0, none⟩) (pstr "u") none
        (some [some 7, some 9])).2.length ≤ ([some 7, some 9] : List (Option Nat)).length
      ∧ ∀ p ∈ (fetch_ab_url_with_retries (fun _ => .err ⟨0, none⟩) (pstr "u") none
          (some [some 7, some 9])).2,
          ([some 7, some 9] : List (Option Nat))[min p.1 ([some 7, some 9] : List (Option Nat)).length - 1]?
            = some p.2)
    ∧ fetch_ab_url_with_retries (fun a => if a ≤ 2 then .err ⟨1, none⟩ else .ok ⟨200, pstr "ok"⟩)
        (pstr "u") none (some [some 1, some 2, some 5])
      = (.ok (some ⟨200, pstr "ok"⟩), [(1, some 1), (2, some 2), (3, some 5)])
    ∧ fetch_ab_url_with_retries (fun _ => .err ⟨1, none⟩) (pstr "u") none (some [some 1])
      = (.error (.transport ⟨1, none⟩), [(1, some 1)]) :=
  fetch_retries_timeout_schedule (fun _ => .err ⟨0, none⟩) [some 7, some 9] (pstr "u")
    ⟨200, pstr "ok"⟩ ⟨1, none⟩ (by decide)

/-- C10.  When resolving the host project and a local version is available
(the non-empty prebuilt version, or failing that the
`HS_BENDER_FORCED_BUILD_VERSION_<PROJECT>` environment variable),
`_fetch_build_version` returns it immediately with the resolution state
completely unchanged — in particular it neither reads nor writes the durable
cache or the per-request memo; for any non-host project this local step
always yields the falsy `''` and resolution proceeds. -/
theorem fetch_build_version_local_self (env : BundlingEnv) (st : ResolveState)
    (p : PyStr) (hhost : env.hostProject = some p)
    (hloc : truthyO (fetch_local_project_build_version env p) = true) :
    fetch_build_version env p st
      = (.ok ((fetch_local_project_build_version env p).getD []), st)
    ∧ fetch_local_project_build_version env p
      = (if truthyS (get_prebuilt_version env p) then some (get_prebuilt_version env p)
         else assocGet env.osEnviron (pstr "HS_BENDER_FORCED_BUILD_VERSION_" ++ pyUpper p))
    ∧ ∀ q, env.hostProject ≠ some q → fetch_local_project_build_version env q = some [] := by
  refine ⟨?_, ?_, ?_⟩
  · simp [fetch_build_version, hloc]
  · simp [fetch_local_project_build_version, hhost]
  · intro q hq
    simp [fetch_local_project_build_version, hq]

/-- A sample environment whose host project `proj` has prebuilt build `3.2`. -/
def sampleHostEnv : BundlingEnv where
  hostProject := some (pstr "proj")
  isDebug := false
  envName := pstr "qa"
  cdnDomain := pstr "cdn.example.com"
  s3Domain := pstr "s3.example.com"
  staticConfDeps := []
  prebuiltBuild := some (pstr "3.2")
  prebuiltDeps := []
  frozenSnapshot := []
  osEnviron := []
  download := fun _ _ => .err ⟨0, none⟩

/-- Witness for C10: in `sampleHostEnv` the host project resolves to its
prebuilt version `static-3.2` with the state untouched, and a non-host
project gets `''` from the local step. -/
theorem fetch_build_version_local_self_witness :
    fetch_build_version sampleHostEnv (pstr "proj") ⟨[], [], []⟩
      = (.ok (pstr "static-3.2"), ⟨[], [], []⟩)
    ∧ fetch_local_project_build_version sampleHostEnv (pstr "other") = some [] := by
  have h := fetch_build_version_local_self sampleHostEnv ⟨[], [], []⟩ (pstr "proj")
    rfl (by decide)
  exact ⟨h.1.trans (by rfl), h.2.2 (pstr "other") (by decide)⟩

/-- C9.  `invalidate_cache_for_deploy(p)` clears the whole scaffold cache and
removes from the version cache exactly the entries whose `project` parameter
is `p` or whose `host_project` parameter is `p`; every other entry survives
unchanged. -/
theorem invalidate_cache_for_deploy_spec {α β : Type} (p : PyStr)
    (pv : List (GenCacheEntry α)) (sc : List (GenCacheEntry β)) :
    (invalidate_cache_for_deploy p pv sc).2 = []
    ∧ (invalidate_cache_for_deploy p pv sc).1
      = pv.filter (fun e => assocGet e.params (pstr "project") ≠ some p
          ∧ assocGet e.params (pstr "host_project") ≠ some p)
    ∧ ∀ e ∈ pv, assocGet e.params (pstr "project") ≠ some p →
        assocGet e.params (pstr "host_project") ≠ some p →
        e ∈ (invalidate_cache_for_deploy p pv sc).1 := by
  have hb1 : assocGet projectVersionBuckets (pstr "static_build_name_for:project")
      = some (some (pstr "project")) := rfl
  have hb2 : assocGet projectVersionBuckets (pstr "static_deps_for_project:host_project")
      = some (some (pstr "host_project")) := rfl
  have hb3 : assocGet scaffoldBuckets (pstr "bender_all_scaffolds") = some none := rfl
  have hg1 : assocGet [(pstr "project", p)] (pstr "project") = some p := rfl
  have hg2 : assocGet [(pstr "host_project", p)] (pstr "host_project") = some p := rfl
  have hmain : (invalidate_cache_for_deploy p pv sc).1
      = pv.filter (fun e => assocGet e.params (pstr "project") ≠ some p
          ∧ assocGet e.params (pstr "host_project") ≠ some p) := by
    simp only [invalidate_cache_for_deploy, genCacheInvalidate, hb1, hb2, hb3, hg1, hg2]
    rw [List.filter_filter]
    refine List.filter_congr (fun e _ => ?_)
    simp [Bool.and_comm]
  refine ⟨?_, hmain, ?_⟩
  · simp only [invalidate_cache_for_deploy, genCacheInvalidate, hb1, hb2, hb3, hg1, hg2]
  · intro e he h1 h2
    rw [hmain]
    exact List.mem_filter.mpr ⟨he, by simp [h1, h2]⟩

/-- Witness for C9 at concrete caches: the `x`-keyed entries go away, the
entry of another project survives, the scaffold cache is emptied. -/
theorem invalidate_cache_for_deploy_witness :
    (invalidate_cache_for_deploy (pstr "x")
      [(⟨[(pstr "project", pstr "x"), (pstr "host_project", pstr "h")], pstr "v1"⟩ : GenCacheEntry PyStr),
       ⟨[(pstr "project", pstr "y"), (pstr "host_project", pstr "x")], pstr "v2"⟩,
       ⟨[(pstr "project", pstr "y"), (pstr "host_project", pstr "h")], pstr "v3"⟩]
      [(⟨[(pstr "scaffold_key", pstr "k")], pstr "s"⟩ : GenCacheEntry PyStr)]).2 = []
    ∧ (invalidate_cache_for_deploy (pstr "x")
      [(⟨[(pstr "project", pstr "x"), (pstr "host_project", pstr "h")], pstr "v1"⟩ : GenCacheEntry PyStr),
       ⟨[(pstr "project", pstr "y"), (pstr "host_project", pstr "x")], pstr "v2"⟩,
       ⟨[(pstr "project", pstr "y"), (pstr "host_project", pstr "h")], pstr "v3"⟩]
      [(⟨[(pstr "scaffold_key", pstr "k")], pstr "s"⟩ : GenCacheEntry PyStr)]).1
      = [⟨[(pstr "project", pstr "y"), (pstr "host_project", pstr "h")], pstr "v3"⟩]
    ∧ (⟨[(pstr "project", pstr "y"), (pstr "host_project", pstr "h")], pstr "v3"⟩ : GenCacheEntry PyStr)
        ∈ (invalidate_cache_for_deploy (pstr "x")
      [(⟨[(pstr "project", pstr "x"), (pstr "host_project", pstr "h")], pstr "v1"⟩ : GenCacheEntry PyStr),
       ⟨[(pstr "project", pstr "y"), (pstr "host_project", pstr "x")], pstr "v2"⟩,
       ⟨[(pstr "project", pstr "y"), (pstr "host_project", pstr "h")], pstr "v3"⟩]
      [(⟨[(pstr "scaffold_key", pstr "k")], pstr "s"⟩ : GenCacheEntry PyStr)]).1 := by
  have h := invalidate_cache_for_deploy_spec (pstr "x")
    [(⟨[(pstr "project", pstr "x"), (pstr "host_project", pstr "h")], pstr "v1"⟩ : GenCacheEntry PyStr),
     ⟨[(pstr "project", pstr "y"), (pstr "host_project", pstr "x")], pstr "v2"⟩,
     ⟨[(pstr "project", pstr "y"), (pstr "host_project", pstr "h")], pstr "v3"⟩]
    [(⟨[(pstr "scaffold_key", pstr "k")], pstr "s"⟩ : GenCacheEntry PyStr)]
  exact ⟨h.1, h.2.1.trans (by decide),
    h.2.2 _ (by decide) (by decide) (by decide)⟩

/-- C2 counterexample.  The claim says a forced override has strictly highest
precedence for every project *including the host project*.  In the code,
`_fetch_build_version` consults `_fetch_local_project_build_version` *before*
the per-request cache into which forced overrides are seeded: with host
project `proj`, prebuilt build `3.2` and a seeded forced override
`static-2.4` for `proj`, resolution returns `static-3.2`, not the override. -/
theorem forced_override_host_counterexample :
    (add_forced_versions_to_per_request_cache sampleHostEnv
        (some [(pstr "proj", pstr "static-2.4")]) ⟨[], [], []⟩).1 = .ok ()
    ∧ (add_forced_versions_to_per_request_cache sampleHostEnv
        (some [(pstr "proj", pstr "static-2.4")]) ⟨[], [], []⟩).2.perRequest
      = [(pstr "proj", pstr "static-2.4")]
    ∧ (fetch_build_version sampleHostEnv (pstr "proj")
        (add_forced_versions_to_per_request_cache sampleHostEnv
          (some [(pstr "proj", pstr "static-2.4")]) ⟨[], [], []⟩).2).1
      = .ok (pstr "static-3.2")
    ∧ pstr "static-3.2" ≠ pstr "static-2.4" :=
  ⟨rfl, rfl, rfl, by decide⟩

/-- C2 (amended).  A forced override is seeded into the per-request cache at
construction (a specific build directly, a non-specific value through a
pointer fetch), and when the override applies — always for a non-host
project, and for the host project only when no local/prebuilt self version
exists — `_fetch_build_version` returns it after only the per-request memo
read, consulting neither the durable cache nor any origin source.  For the
host project with a local self version, that local version wins instead. -/
theorem forced_override_precedence (env : BundlingEnv) (st : ResolveState)
    (p ov : PyStr)
    (hmemo : assocGet st.perRequest p = some ov)
    (hov : truthyS ov = true)
    (hself : env.hostProject = some p →
      truthyO (fetch_local_project_build_version env p) = false) :
    fetch_build_version env p st
      = (.ok ov, { st with events := st.events ++ [.memoRead p] })
    ∧ (∀ (st0 : ResolveState) (v : PyStr), is_specific_build_name v = true →
        add_forced_versions_to_per_request_cache env (some [(p, v)]) st0
          = (.ok (), { st0 with perRequest := assocSet st0.perRequest p v }))
    ∧ (∀ (st0 : ResolveState) (v : PyStr), is_specific_build_name v = false →
        (add_forced_versions_to_per_request_cache env (some [(p, v)]) st0).2.events
          = st0.events ++ [.pointerFetch (make_url_to_pointer env v p)]) := by
  have hlocal : truthyO (fetch_local_project_build_version env p) = false := by
    by_cases hh : env.hostProject = some p
    · exact hself hh
    · simp [fetch_local_project_build_version, hh, truthyO]
  refine ⟨?_, ?_, ?_⟩
  · have hmt : truthyO (some ov) = true := hov
    simp [fetch_build_version, hlocal, hmemo, hmt]
  · intro st0 v hv
    simp [add_forced_versions_to_per_request_cache, add_forced_versions_go, hv]
  · intro st0 v hv
    simp only [add_forced_versions_to_per_request_cache, List.isEmpty_cons,
      Bool.false_eq_true, if_false, add_forced_versions_go, hv,
      fetch_version_from_version_pointer]
    cases hf : bundlingFetch env (make_url_to_pointer env v p) with
    | error e => simp [add_forced_versions_go]
    | ok r =>
      by_cases htext : truthyS r.text
      · simp [htext, add_forced_versions_go]
      · simp [htext, add_forced_versions_go]

/-- Witness for C2's amended theorem: a non-host project's seeded override is
returned with only a memo read; seeding stores a specific build directly and
resolves a pointer value over the network. -/
theorem forced_override_precedence_witness :
    fetch_build_version sampleHostEnv (pstr "dep")
        ⟨[(pstr "dep", pstr "static-2.4")], [], []⟩
      = (.ok (pstr "static-2.4"),
         ⟨[(pstr "dep", pstr "static-2.4")], [], [.memoRead (pstr "dep")]⟩)
    ∧ add_forced_versions_to_per_request_cache sampleHostEnv
        (some [(pstr "dep", pstr "static-2.4")]) ⟨[], [], []⟩
      = (.ok (), ⟨[(pstr "dep", pstr "static-2.4")], [], []⟩)
    ∧ (add_forced_versions_to_per_request_cache sampleHostEnv
        (some [(pstr "dep", pstr "edge")]) ⟨[], [], []⟩).2.events
      = [.pointerFetch (make_url_to_pointer sampleHostEnv (pstr "edge") (pstr "dep"))] := by
  have h := forced_override_precedence sampleHostEnv
    ⟨[(pstr "dep", pstr "static-2.4")], [], []⟩ (pstr "dep") (pstr "static-2.4")
    rfl (by decide) (fun hh => absurd hh (by decide))
  exact ⟨h.1, h.2.1 ⟨[], [], []⟩ (pstr "static-2.4") rfl,
    (h.2.2 ⟨[], [], []⟩ (pstr "edge") (by decide)).trans (by rfl)⟩

theorem replaceAllAux_of_not_mem (c : Char) (pat2 rep : PyStr) :
    ∀ (fuel : Nat) (s : PyStr), c ∉ s → replaceAllAux (c :: pat2) rep fuel s = s := by
  intro fuel
  induction fuel with
  | zero => intro s _; rfl
  | succ n ih =>
    intro s hs
    cases s with
    | nil => rfl
    | cons a s2 =>
      have hne : (c == a) = false := by
        simp only [beq_eq_false_iff_ne, ne_eq]
        intro h; exact hs (h ▸ List.mem_cons_self a s2)
      simp only [replaceAllAux, List.isPrefixOf, hne, Bool.false_and, Bool.and_false]
      have := ih s2 (fun h => hs (List.mem_cons_of_mem a h))
      simp [this]

theorem splitOnChar_ne_nil (c : Char) (l : PyStr) : splitOnChar c l ≠ [] := by
  cases l with
  | nil => simp [splitOnChar]
  | cons a l2 =>
    simp only [splitOnChar]
    rcases h : splitOnChar c l2 with _ | ⟨h2, t2⟩
    · simp
    · by_cases hac : a = c <;> simp [hac]

theorem splitOnChar_of_not_mem (c : Char) (b : PyStr) (h : c ∉ b) :
    splitOnChar c b = [b] := by
  induction b with
  | nil => rfl
  | cons a b2 ih =>
    have ha : ¬a = c := fun hh => h (hh ▸ List.mem_cons_self a b2)
    have hb : c ∉ b2 := fun hh => h (List.mem_cons_of_mem a hh)
    simp only [splitOnChar, ih hb, ha, if_false]

theorem splitOnChar_append (c : Char) (a b : PyStr) (ha : c ∉ a) :
    splitOnChar c (a ++ c :: b) = a :: splitOnChar c b := by
  induction a with
  | nil =>
    simp only [List.nil_append, splitOnChar]
    rcases h : splitOnChar c b with _ | ⟨h2, t2⟩
    · exact absurd h (splitOnChar_ne_nil c b)
    · simp
  | cons d a2 ih =>
    have hd : ¬d = c := fun hh => ha (hh ▸ List.mem_cons_self d a2)
    have ha2 : c ∉ a2 := fun hh => ha (List.mem_cons_of_mem d hh)
    simp only [List.cons_append, splitOnChar, List.append_eq, ih ha2, hd, if_false]



theorem isDigitStr_facts (d : PyStr) (h : isDigitStr d = true) :
    d ≠ [] ∧ ∀ x ∈ d, isDigitChar x = true := by
  simp only [isDigitStr, Bool.and_eq_true, List.all_eq_true] at h
  refine ⟨by simpa using h.1, fun x hx => h.2 x hx⟩

theorem not_mem_of_isDigitStr (d : PyStr) (h : isDigitStr d = true)
    (c : Char) (hc : isDigitChar c = false) : c ∉ d := by
  intro hmem
  have := (isDigitStr_facts d h).2 c hmem
  rw [hc] at this
  exact Bool.false_ne_true this

theorem replaceAllAux_head_match (pat rep s : PyStr) (fuel : Nat) (hp : pat ≠ [])
    (hpre : pat.isPrefixOf s = true) :
    replaceAllAux pat rep (fuel + 1) s
      = rep ++ replaceAllAux pat rep fuel (s.drop pat.length) := by
  have hne : pat.isEmpty = false := by
    cases pat with
    | nil => exact absurd rfl hp
    | cons a l => rfl
  simp only [replaceAllAux, hpre, hne, Bool.not_false, Bool.true_and, if_pos]

theorem replaceAllAux_strip (rest : PyStr) (h : 's' ∉ rest) (fuel : Nat) :
    replaceAllAux staticPfx [] (fuel + 1) (staticPfx ++ rest) = rest := by
  have hpre : staticPfx.isPrefixOf (staticPfx ++ rest) = true := by
    rw [List.isPrefixOf_iff_prefix]
    exact List.prefix_append _ _
  rw [replaceAllAux_head_match _ _ _ fuel (by decide) hpre, List.drop_left, List.nil_append]
  have hpfx : staticPfx = 's' :: "tatic-".data := rfl
  rw [hpfx]
  exact replaceAllAux_of_not_mem 's' ("tatic-".data) [] fuel rest h

theorem pyReplace_strip (rest : PyStr) (h : 's' ∉ rest) :
    pyReplace (staticPfx ++ rest) staticPfx [] = rest := by
  unfold pyReplace
  have hl : (staticPfx ++ rest).length = rest.length + 6 + 1 := by
    simp [staticPfx, pstr]
  rw [hl]
  exact replaceAllAux_strip rest h _



theorem pyInt?_digits (d : PyStr) (h : isDigitStr d = true) :
    pyInt? d = some ((decValue d : Int)) := by
  rcases isDigitStr_facts d h with ⟨hne, hall⟩
  cases d with
  | nil => exact absurd rfl hne
  | cons c rest =>
    have hc : isDigitChar c = true := hall c (List.mem_cons_self c rest)
    have hcm : ¬c = '-' := by
      intro hh; subst hh; exact absurd hc (by decide)
    have hcp : ¬c = '+' := by
      intro hh; subst hh; exact absurd hc (by decide)
    simp only [pyInt?, hcm, hcp, if_false, h, if_true]

theorem parseBuildInts_mkBuild (dM dm : PyStr)
    (h1 : isDigitStr dM = true) (h2 : isDigitStr dm = true) :
    parseBuildInts (mkBuild dM dm)
      = some [(decValue dM : Int), (decValue dm : Int)] := by
  have hsM : 's' ∉ dM := not_mem_of_isDigitStr dM h1 's' (by decide)
  have hsm : 's' ∉ dm := not_mem_of_isDigitStr dm h2 's' (by decide)
  have hdM : '.' ∉ dM := not_mem_of_isDigitStr dM h1 '.' (by decide)
  have hdm : '.' ∉ dm := not_mem_of_isDigitStr dm h2 '.' (by decide)
  have hsrest : 's' ∉ dM ++ '.' :: dm := by
    intro hmem
    rcases List.mem_append.mp hmem with hl | hr
    · exact hsM hl
    · rcases List.mem_cons.mp hr with heq | htl
      · exact absurd heq (by decide)
      · exact hsm htl
  have hrepl : pyReplace (mkBuild dM dm) staticPfx [] = dM ++ '.' :: dm := by
    have : mkBuild dM dm = staticPfx ++ (dM ++ '.' :: dm) := by
      simp [mkBuild]
    rw [this]
    exact pyReplace_strip _ hsrest
  simp only [parseBuildInts, hrepl, splitOnChar_append '.' dM dm hdM,
    splitOnChar_of_not_mem '.' dm hdm]
  have hmap : List.mapM pyInt? [dM, dm] = some [(decValue dM : Int), (decValue dm : Int)] := by
    simp [List.mapM, List.mapM.loop, pyInt?_digits dM h1, pyInt?_digits dm h2]
  simpa using hmap

theorem pyCmp_self (a : Int) : pyCmp a a = 0 := by
  simp [pyCmp]

theorem pyCmp_eq_zero_iff (a b : Int) : pyCmp a b = 0 ↔ a = b := by
  unfold pyCmp
  split_ifs with h1 h2
  · constructor
    · intro hh; exact absurd hh (by decide)
    · intro hh; omega
  · constructor
    · intro hh; exact absurd hh (by decide)
    · intro hh; omega
  · constructor
    · intro hh; omega
    · intro hh; rfl

/-- C4.  `_compare_build_names` on two specific builds `static-<M>.<m>`
parses the `(major, minor)` integer pairs and returns the comparison of the
majors when they differ, otherwise the comparison of the minors: with equal
majors the result is determined solely by the minors, and with different
majors the minors are irrelevant (they do not appear in the result). -/
theorem compare_build_names_spec (dM dm eM em : PyStr)
    (h1 : isDigitStr dM = true) (h2 : isDigitStr dm = true)
    (h3 : isDigitStr eM = true) (h4 : isDigitStr em = true) :
    compare_build_names (mkBuild dM dm) (mkBuild eM em)
      = some (if (decValue dM : Int) = decValue eM
              then pyCmp (decValue dm) (decValue em)
              else pyCmp (decValue dM) (decValue eM)) := by
  have hp1 := parseBuildInts_mkBuild dM dm h1 h2
  have hp2 := parseBuildInts_mkBuild eM em h3 h4
  by_cases heq : (decValue dM : Int) = decValue eM
  · simp [compare_build_names, hp1, hp2, heq, pyCmp_self]
  · have hz : ¬pyCmp (decValue dM) (decValue eM) = 0 :=
      fun hh => heq ((pyCmp_eq_zero_iff _ _).mp hh)
    simp [compare_build_names, hp1, hp2, hz, heq]


/-- Witness for C4: `static-2.4` vs `static-2.10` is decided by the minors. -/
theorem compare_build_names_spec_witness :
    compare_build_names (mkBuild (pstr "2") (pstr "4")) (mkBuild (pstr "2") (pstr "10"))
      = some (-1) :=
  (compare_build_names_spec (pstr "2") (pstr "4") (pstr "2") (pstr "10")
    (by decide) (by decide) (by decide) (by decide)).trans (by decide)

/-- The `(major, minor)` key the comparator extracts from a build name. -/
def parseKey (x : PyStr) : Option (Int × Int) := do
  let xs ← parseBuildInts x
  let a ← xs.get? 0
  let b ← xs.get? 1
  pure (a, b)

/-- Lexicographic major-then-minor comparison on keys, mirroring the code. -/
def keyCmp (a b : Int × Int) : Int :=
  if pyCmp a.1 b.1 ≠ 0 then pyCmp a.1 b.1 else pyCmp a.2 b.2

theorem parseKey_mkBuild (dM dm : PyStr)
    (h1 : isDigitStr dM = true) (h2 : isDigitStr dm = true) :
    parseKey (mkBuild dM dm) = some ((decValue dM : Int), (decValue dm : Int)) := by
  simp [parseKey, parseBuildInts_mkBuild dM dm h1 h2]

theorem compare_eq_keyCmp (x y : PyStr) (a b : Int × Int)
    (hx : parseKey x = some a) (hy : parseKey y = some b) :
    compare_build_names x y = some (keyCmp a b) := by
  unfold parseKey at hx hy
  cases hpx : parseBuildInts x with
  | none => simp [hpx] at hx
  | some xs =>
  cases hpy : parseBuildInts y with
  | none => simp [hpy] at hy
  | some ys =>
  rw [hpx] at hx; rw [hpy] at hy
  simp only [Option.bind_eq_bind, Option.some_bind, List.get?_eq_getElem?] at hx hy
  cases h0 : xs[0]? with
  | none => simp [h0] at hx
  | some x0 =>
  cases h1 : xs[1]? with
  | none => simp [h0, h1] at hx
  | some x1 =>
  cases h0y : ys[0]? with
  | none => simp [h0y] at hy
  | some y0 =>
  cases h1y : ys[1]? with
  | none => simp [h0y, h1y] at hy
  | some y1 =>
  simp only [h0, h1, Option.some_bind, Option.pure_def, Option.some.injEq] at hx
  simp only [h0y, h1y, Option.some_bind, Option.pure_def, Option.some.injEq] at hy
  subst hx; subst hy
  simp only [compare_build_names, hpx, hpy, List.get?_eq_getElem?, h0, h1, h0y, h1y, keyCmp,
    Option.bind_eq_bind, Option.some_bind]
  by_cases hz : pyCmp x0 y0 ≠ 0 <;> simp [hz]

theorem keyCmp_self (a : Int × Int) : keyCmp a a = 0 := by
  simp [keyCmp, pyCmp_self]

theorem keyCmp_total (a b : Int × Int) : keyCmp a b ≤ 0 ∨ keyCmp b a ≤ 0 := by
  unfold keyCmp pyCmp
  split_ifs <;> omega

theorem keyCmp_le_iff (a b : Int × Int) :
    keyCmp a b ≤ 0 ↔ (a.1 < b.1 ∨ (a.1 = b.1 ∧ a.2 ≤ b.2)) := by
  unfold keyCmp pyCmp
  split_ifs <;> constructor <;> intro hh <;> omega

theorem keyCmp_trans (a b c : Int × Int)
    (h1 : keyCmp a b ≤ 0) (h2 : keyCmp b c ≤ 0) : keyCmp a c ≤ 0 := by
  rw [keyCmp_le_iff] at h1 h2 ⊢
  omega

theorem keyCmp_flip (a b : Int × Int) (h : ¬keyCmp a b < 0) : keyCmp b a ≤ 0 := by
  unfold keyCmp pyCmp at h ⊢
  split_ifs at h ⊢ <;> omega



/-- A build string the comparator can handle: it parses to a key. -/
def GoodBuild (x : PyStr) : Prop := ∃ k, parseKey x = some k

/-- The non-strict order the comparator induces. -/
def ordL (x y : PyStr) : Prop := ∃ c, compare_build_names x y = some c ∧ c ≤ 0

theorem ordL_refl (x : PyStr) (hx : GoodBuild x) : ordL x x := by
  obtain ⟨k, hk⟩ := hx
  exact ⟨keyCmp k k, compare_eq_keyCmp x x k k hk hk, by rw [keyCmp_self]⟩

theorem ordL_trans (x y z : PyStr) (hx : GoodBuild x) (hy : GoodBuild y)
    (hz : GoodBuild z) (h1 : ordL x y) (h2 : ordL y z) : ordL x z := by
  obtain ⟨kx, hkx⟩ := hx
  obtain ⟨ky, hky⟩ := hy
  obtain ⟨kz, hkz⟩ := hz
  obtain ⟨c1, hc1, hc1le⟩ := h1
  obtain ⟨c2, hc2, hc2le⟩ := h2
  rw [compare_eq_keyCmp x y kx ky hkx hky] at hc1
  rw [compare_eq_keyCmp y z ky kz hky hkz] at hc2
  have e1 : c1 = keyCmp kx ky := (Option.some.injEq _ _ ▸ hc1.symm)
  have e2 : c2 = keyCmp ky kz := (Option.some.injEq _ _ ▸ hc2.symm)
  refine ⟨keyCmp kx kz, compare_eq_keyCmp x z kx kz hkx hkz, ?_⟩
  exact keyCmp_trans kx ky kz (e1 ▸ hc1le) (e2 ▸ hc2le)

theorem insertSortedCmp_spec (x : PyStr) (hx : GoodBuild x) :
    ∀ (acc : List PyStr), (∀ y ∈ acc, GoodBuild y) → acc.Pairwise ordL →
      ∃ r, insertSortedCmp compare_build_names x acc = some r
        ∧ (∀ z, z ∈ r ↔ z = x ∨ z ∈ acc) ∧ r.Pairwise ordL := by
  intro acc
  induction acc with
  | nil =>
    intro _ _
    exact ⟨[x], rfl, by simp, by simp⟩
  | cons y ys ih =>
    intro hgood hsort
    obtain ⟨kx, hkx⟩ := hx
    obtain ⟨ky, hky⟩ := hgood y (List.mem_cons_self y ys)
    have hys : ∀ z ∈ ys, GoodBuild z := fun z hz => hgood z (List.mem_cons_of_mem y hz)
    have hcmp := compare_eq_keyCmp x y kx ky hkx hky
    rw [List.pairwise_cons] at hsort
    by_cases hlt : keyCmp kx ky < 0
    · refine ⟨x :: y :: ys, ?_, by simp, ?_⟩
      · simp only [insertSortedCmp, hcmp, if_pos hlt]
      · rw [List.pairwise_cons]
        refine ⟨?_, List.pairwise_cons.mpr hsort⟩
        intro z hz
        rcases List.mem_cons.mp hz with rfl | hzys
        · exact ⟨keyCmp kx ky, hcmp, le_of_lt hlt⟩
        · exact ordL_trans x y z ⟨kx, hkx⟩ ⟨ky, hky⟩ (hys z hzys)
            ⟨keyCmp kx ky, hcmp, le_of_lt hlt⟩ (hsort.1 z hzys)
    · obtain ⟨r, hr, hmem, hrsort⟩ := ih hys hsort.2
      refine ⟨y :: r, ?_, ?_, ?_⟩
      · simp [insertSortedCmp, hcmp, if_neg hlt, hr]
      · intro z
        simp only [List.mem_cons, hmem z]
        tauto
      · rw [List.pairwise_cons]
        refine ⟨?_, hrsort⟩
        intro z hz
        rcases (hmem z).mp hz with rfl | hzys
        · exact ⟨keyCmp ky kx, compare_eq_keyCmp y z ky kx hky hkx, keyCmp_flip kx ky hlt⟩
        · exact hsort.1 z hzys

theorem sortFold_spec :
    ∀ (pending acc : List PyStr), (∀ y ∈ acc, GoodBuild y) →
      (∀ y ∈ pending, GoodBuild y) → acc.Pairwise ordL →
      ∃ r, sortFold compare_build_names acc pending = some r
        ∧ (∀ z, z ∈ r ↔ z ∈ acc ∨ z ∈ pending) ∧ r.Pairwise ordL := by
  intro pending
  induction pending with
  | nil =>
    intro acc hacc _ hsort
    exact ⟨acc, rfl, by simp, hsort⟩
  | cons p ps ih =>
    intro acc hacc hpend hsort
    obtain ⟨r1, hr1, hmem1, hsort1⟩ :=
      insertSortedCmp_spec p (hpend p (List.mem_cons_self p ps)) acc hacc hsort
    have hr1good : ∀ y ∈ r1, GoodBuild y := by
      intro y hy
      rcases (hmem1 y).mp hy with rfl | hyacc
      · exact hpend y (List.mem_cons_self y ps)
      · exact hacc y hyacc
    obtain ⟨r, hr, hmem, hsortr⟩ := ih r1 hr1good
      (fun y hy => hpend y (List.mem_cons_of_mem p hy)) hsort1
    refine ⟨r, ?_, ?_, hsortr⟩
    · simp only [sortFold, hr1, hr]
    · intro z
      rw [hmem z]
      simp only [hmem1 z, List.mem_cons]
      tauto

theorem mem_of_getLast?_eq (l : List PyStr) (r : PyStr) (h : l.getLast? = some r) :
    r ∈ l := by
  induction l with
  | nil => simp [List.getLast?] at h
  | cons a t ih =>
    cases t with
    | nil =>
      simp only [List.getLast?_singleton, Option.some.injEq] at h
      simp [h]
    | cons b t2 =>
      rw [List.getLast?_cons_cons] at h
      exact List.mem_cons_of_mem a (ih h)

theorem pairwise_getLast_max (l : List PyStr) (hl : l.Pairwise ordL)
    (hgood : ∀ y ∈ l, GoodBuild y) (r : PyStr) (hr : l.getLast? = some r) :
    ∀ x ∈ l, ordL x r := by
  induction l with
  | nil => simp
  | cons a t ih =>
    cases t with
    | nil =>
      simp only [List.getLast?_singleton, Option.some.injEq] at hr
      subst hr
      intro x hx
      rcases List.mem_singleton.mp hx with rfl
      exact ordL_refl x (hgood x (List.mem_cons_self x []))
    | cons b t2 =>
      rw [List.getLast?_cons_cons] at hr
      rw [List.pairwise_cons] at hl
      have hrmem : r ∈ b :: t2 := mem_of_getLast?_eq _ _ hr
      intro x hx
      rcases List.mem_cons.mp hx with rfl | hxt
      · exact hl.1 r hrmem
      · exact ih hl.2 (fun y hy => hgood y (List.mem_cons_of_mem a hy)) hr x hxt



/-- C5.  `_maximum_version_of` over candidates of which at least one is
present (non-empty) returns a present candidate that is greatest under
`_compare_build_names` (every present candidate compares `≤ 0` against it);
over all-absent candidates it fails (raises) instead of returning a value. -/
theorem maximum_version_of_spec (args : List PyStr)
    (hforms : ∀ a ∈ args, a = [] ∨ ∃ dM dm, isDigitStr dM = true ∧ isDigitStr dm = true
        ∧ a = mkBuild dM dm) :
    ((∃ a ∈ args, a ≠ []) →
      ∃ r, maximum_version_of args = some r ∧ r ∈ args ∧ r ≠ []
        ∧ ∀ a ∈ args, a ≠ [] → ∃ c, compare_build_names a r = some c ∧ c ≤ 0)
    ∧ ((∀ a ∈ args, a = []) → maximum_version_of args = none) := by
  constructor
  · rintro ⟨a0, ha0, ha0ne⟩
    have hgood : ∀ y ∈ args.filter (fun a => !a.isEmpty), GoodBuild y := by
      intro y hy
      rw [List.mem_filter] at hy
      rcases hforms y hy.1 with rfl | ⟨dM, dm, h1, h2, rfl⟩
      · simp at hy
      · exact ⟨_, parseKey_mkBuild dM dm h1 h2⟩
    obtain ⟨r, hr, hmem, hsort⟩ :=
      sortFold_spec (args.filter (fun a => !a.isEmpty)) [] (by simp) hgood List.Pairwise.nil
    have ha0p : a0 ∈ args.filter (fun a => !a.isEmpty) := by
      rw [List.mem_filter]
      exact ⟨ha0, by simpa using ha0ne⟩
    have hrne : r ≠ [] := by
      intro hnil
      rw [hnil] at hmem
      have := (hmem a0).mpr (Or.inr ha0p)
      simp at this
    obtain ⟨last, hlast⟩ := Option.isSome_iff_exists.mp
      ((List.getLast?_isSome).mpr hrne)
    have hrgood : ∀ y ∈ r, GoodBuild y := by
      intro y hy
      rcases (hmem y).mp hy with hy0 | hy1
      · simp at hy0
      · exact hgood y hy1
    have hlastp : last ∈ args.filter (fun a => !a.isEmpty) := by
      have := (hmem last).mp (mem_of_getLast?_eq r last hlast)
      rcases this with h | h
      · simp at h
      · exact h
    rw [List.mem_filter] at hlastp
    refine ⟨last, ?_, hlastp.1, by simpa using hlastp.2, ?_⟩
    · simp only [maximum_version_of, pySortedCmp]
      rw [hr]
      exact hlast
    · intro a ha hane
      have hap : a ∈ args.filter (fun aa => !aa.isEmpty) := by
        rw [List.mem_filter]
        exact ⟨ha, by simpa using hane⟩
      have har : a ∈ r := (hmem a).mpr (Or.inr hap)
      exact pairwise_getLast_max r hsort hrgood last hlast a har
  · intro hall
    have hfil : args.filter (fun a => !a.isEmpty) = [] := by
      rw [List.filter_eq_nil_iff]
      intro a ha
      simp [hall a ha]
    simp only [maximum_version_of, pySortedCmp, hfil, sortFold]
    rfl

/-- Witness for C5 at concrete candidate lists. -/
theorem maximum_version_of_spec_witness :
    (∃ r, maximum_version_of [pstr "", pstr "static-2.4", pstr "static-10.1"] = some r
      ∧ r ∈ [pstr "", pstr "static-2.4", pstr "static-10.1"] ∧ r ≠ []
      ∧ ∀ a ∈ [pstr "", pstr "static-2.4", pstr "static-10.1"], a ≠ [] →
          ∃ c, compare_build_names a r = some c ∧ c ≤ 0)
    ∧ maximum_version_of [pstr "", pstr ""] = none := by
  constructor
  · refine (maximum_version_of_spec _ ?_).1 ⟨pstr "static-2.4", by decide, by decide⟩
    intro a ha
    simp only [List.mem_cons, List.not_mem_nil, or_false] at ha
    rcases ha with rfl | rfl | rfl
    · exact Or.inl rfl
    · exact Or.inr ⟨pstr "2", pstr "4", by decide, by decide, rfl⟩
    · exact Or.inr ⟨pstr "10", pstr "1", by decide, by decide, rfl⟩
  · refine (maximum_version_of_spec [pstr "", pstr ""] ?_).2 (by decide)
    intro a ha
    simp only [List.mem_cons, List.not_mem_nil, or_false] at ha
    rcases ha with rfl | rfl <;> exact Or.inl rfl

theorem takeWhile_append_stop (p : Char → Bool) (a : PyStr) (b : Char) (t : PyStr)
    (ha : ∀ c ∈ a, p c = true) (hb : p b = false) :
    (a ++ b :: t).takeWhile p = a := by
  induction a with
  | nil => simp [List.takeWhile, hb]
  | cons x a2 ih =>
    have hx : p x = true := ha x (List.mem_cons_self x a2)
    simp only [List.cons_append, List.takeWhile_cons, hx, if_true]
    rw [ih (fun c hc => ha c (List.mem_cons_of_mem x hc))]

theorem takeWhile_all (p : Char → Bool) (l : PyStr) (h : ∀ c ∈ l, p c = true) :
    l.takeWhile p = l := by
  induction l with
  | nil => rfl
  | cons x l2 ih =>
    simp only [List.takeWhile_cons, h x (List.mem_cons_self x l2), if_true]
    rw [ih (fun c hc => h c (List.mem_cons_of_mem x hc))]

theorem digitSplits_findSome {α : Type} (f : PyStr × PyStr → Option α)
    (M : PyStr) (b : Char) (t : PyStr)
    (hM : isDigitStr M = true) (hb : isDigitChar b = false)
    (res : α) (hres : f (M, b :: t) = some res) :
    (digitSplits (M ++ b :: t)).findSome? f = some res := by
  rcases isDigitStr_facts M hM with ⟨hne, hall⟩
  have hrun : (M ++ b :: t).takeWhile isDigitChar = M :=
    takeWhile_append_stop isDigitChar M b t hall hb
  obtain ⟨k, hk⟩ : ∃ k, M.length = k + 1 := by
    cases M with
    | nil => exact absurd rfl hne
    | cons x l => exact ⟨l.length, rfl⟩
  simp only [digitSplits, hrun, hk, List.range_succ_eq_map, List.map_cons,
    List.findSome?_cons, Nat.sub_zero]
  rw [show k + 1 = M.length from hk.symm, List.take_left, List.drop_left, hres]

theorem matchDashVerSlash_spec (M m sub : PyStr)
    (hM : isDigitStr M = true) (hm : isDigitStr m = true) :
    matchDashVerSlash ('-' :: (M ++ '.' :: (m ++ '/' :: sub)))
      = some ('-' :: (M ++ '.' :: m), sub) := by
  have hinner : (digitSplits (m ++ '/' :: sub)).findSome? (fun d2r4 =>
        match d2r4.2 with
        | [] => none
        | c4 :: r5 => if c4 = '/' then some ('-' :: (M ++ '.' :: d2r4.1), r5) else none)
        = some ('-' :: (M ++ '.' :: m), sub) :=
    digitSplits_findSome _ m '/' sub hm (by decide) _ (by simp)
  simp only [matchDashVerSlash, if_pos rfl]
  exact digitSplits_findSome _ M '.' (m ++ '/' :: sub) hM (by decide) _
    (by simpa using hinner)

theorem split_bundle_path_hardcoded (lead proj M m sub : PyStr)
    (hlead : lead = [] ∨ lead = ['/'])
    (hpne : proj ≠ []) (hproj : ∀ c ∈ proj, c ≠ '/')
    (hM : isDigitStr M = true) (hm : isDigitStr m = true)
    (hsub : ∀ c ∈ sub, c ≠ '\n') :
    split_bundle_path (lead ++ proj ++ pstr "/static-" ++ M ++ '.' :: m ++ '/' :: sub)
      = some (proj, some (pstr "static-" ++ M ++ '.' :: m), sub) := by
  obtain ⟨p0, proj2, rfl⟩ : ∃ p0 proj2, proj = p0 :: proj2 := by
    cases proj with
    | nil => exact absurd rfl hpne
    | cons a l => exact ⟨a, l, rfl⟩
  have hp0 : p0 ≠ '/' := hproj p0 (List.mem_cons_self _ _)
  -- the path after the optional leading slash
  have hstrip : (if ((lead ++ (p0 :: proj2) ++ pstr "/static-" ++ M ++ '.' :: m ++ '/' :: sub : PyStr)).head?
        = some '/' then ((lead ++ (p0 :: proj2) ++ pstr "/static-" ++ M ++ '.' :: m ++ '/' :: sub : PyStr)).tail
      else lead ++ (p0 :: proj2) ++ pstr "/static-" ++ M ++ '.' :: m ++ '/' :: sub)
      = (p0 :: proj2) ++ pstr "/static-" ++ M ++ '.' :: m ++ '/' :: sub := by
    rcases hlead with rfl | rfl
    · simp [hp0]
    · simp
  rw [split_bundle_path]
  rw [hstrip]
  have hs : (p0 :: proj2) ++ pstr "/static-" ++ M ++ '.' :: m ++ '/' :: sub
      = (p0 :: proj2) ++ '/' :: (pstr "static-" ++ (M ++ '.' :: (m ++ '/' :: sub))) := by
    simp [pstr, List.append_assoc]
  rw [hs]
  have hg1 : ((p0 :: proj2) ++ '/' :: (pstr "static-" ++ (M ++ '.' :: (m ++ '/' :: sub)))).takeWhile
      (fun c => c ≠ '/') = p0 :: proj2 := by
    refine takeWhile_append_stop _ _ _ _ ?_ (by simp)
    intro c hc
    simp [hproj c hc]
  rw [hg1]
  simp only [List.isEmpty_cons, Bool.false_eq_true, if_false]
  rw [show ((p0 :: proj2) ++ '/' :: (pstr "static-" ++ (M ++ '.' :: (m ++ '/' :: sub)))).drop
      (p0 :: proj2).length = '/' :: (pstr "static-" ++ (M ++ '.' :: (m ++ '/' :: sub)))
    from List.drop_left _ _]
  simp only [List.head?_cons, if_pos rfl, List.tail_cons]
  have hT : (pstr "static-" ++ (M ++ '.' :: (m ++ '/' :: sub)) : PyStr)
      = pstr "static" ++ ('-' :: (M ++ '.' :: (m ++ '/' :: sub))) := rfl
  rw [hT]
  have hpre : (pstr "static").isPrefixOf
      (pstr "static" ++ ('-' :: (M ++ '.' :: (m ++ '/' :: sub)))) = true := by
    rw [List.isPrefixOf_iff_prefix]
    exact List.prefix_append _ _
  rw [hpre]
  simp only [if_true]
  rw [show ((pstr "static" ++ ('-' :: (M ++ '.' :: (m ++ '/' :: sub))) : PyStr)).drop 6
      = '-' :: (M ++ '.' :: (m ++ '/' :: sub))
    from List.drop_left (pstr "static") ('-' :: (M ++ '.' :: (m ++ '/' :: sub)))]
  rw [matchDashVerSlash_spec M m sub hM hm]
  have hsub2 : sub.takeWhile (fun c => c ≠ '\n') = sub := by
    refine takeWhile_all _ _ ?_
    intro c hc
    simp [hsub c hc]
  simp only [hsub2]
  simp [pstr, List.append_assoc]



/-- C6.  `_split_bundle_path` on `"proj/static-3.1/js/app.js"` yields
`(project="proj", hardcoded_version="static-3.1", subpath="js/app.js")`; and
for every bundle path matching `[/]<project>/static-<major>.<minor>/<subpath>`
the parse returns the hardcoded version, and `fetch_include_html` uses it
verbatim in the fetched URL while performing no version resolution at all:
the only recorded event is the bundle-HTML fetch (no memo, durable-cache or
pointer-fetch events) and the resolution state is unchanged. -/
theorem split_bundle_path_hardcoded_bypass (env : BundlingEnv) (st : ResolveState)
    (lead proj M m sub : PyStr)
    (hlead : lead = [] ∨ lead = ['/'])
    (hpne : proj ≠ []) (hproj : ∀ c ∈ proj, c ≠ '/')
    (hM : isDigitStr M = true) (hm : isDigitStr m = true)
    (hsub : ∀ c ∈ sub, c ≠ '\n') :
    split_bundle_path (pstr "proj/static-3.1/js/app.js")
      = some (pstr "proj", some (pstr "static-3.1"), pstr "js/app.js")
    ∧ split_bundle_path (lead ++ proj ++ pstr "/static-" ++ M ++ '.' :: m ++ '/' :: sub)
      = some (proj, some (pstr "static-" ++ M ++ '.' :: m), sub)
    ∧ ((s3_fetch_include_html env
          (lead ++ proj ++ pstr "/static-" ++ M ++ '.' :: m ++ '/' :: sub) st).2.events
        = st.events ++ [.bundleFetch (pstr "http://" ++ env.cdnDomain ++ pstr "/" ++ proj
            ++ pstr "/" ++ (pstr "static-" ++ M ++ '.' :: m) ++ pstr "/" ++ sub
            ++ pstr ".bundle" ++ (if env.isDebug then pstr "-expanded" else [])
            ++ pstr ".html")]
      ∧ (s3_fetch_include_html env
          (lead ++ proj ++ pstr "/static-" ++ M ++ '.' :: m ++ '/' :: sub) st).2.perRequest
        = st.perRequest
      ∧ (s3_fetch_include_html env
          (lead ++ proj ++ pstr "/static-" ++ M ++ '.' :: m ++ '/' :: sub) st).2.durable
        = st.durable) := by
  have hsplit := split_bundle_path_hardcoded lead proj M m sub hlead hpne hproj hM hm hsub
  refine ⟨rfl, hsplit, ?_⟩
  simp only [s3_fetch_include_html, hsplit]
  cases hf : bundlingFetch env (pstr "http://" ++ env.cdnDomain ++ pstr "/" ++ proj
      ++ pstr "/" ++ (pstr "static-" ++ M ++ '.' :: m) ++ pstr "/" ++ sub
      ++ pstr ".bundle" ++ (if env.isDebug then pstr "-expanded" else [])
      ++ pstr ".html") with
  | error e => simp [hf]
  | ok r => simp [hf]



/-- Witness for C6 at the concrete example path of the spec. -/
theorem split_bundle_path_hardcoded_bypass_witness :
    split_bundle_path (pstr "proj/static-3.1/js/app.js")
      = some (pstr "proj", some (pstr "static-3.1"), pstr "js/app.js")
    ∧ (s3_fetch_include_html sampleHostEnv (pstr "proj/static-3.1/js/app.js")
        ⟨[], [], []⟩).2.events
      = [.bundleFetch (pstr "http://cdn.example.com/proj/static-3.1/js/app.js.bundle.html")]
    ∧ (s3_fetch_include_html sampleHostEnv (pstr "proj/static-3.1/js/app.js")
        ⟨[], [], []⟩).2.perRequest = []
    ∧ (s3_fetch_include_html sampleHostEnv (pstr "proj/static-3.1/js/app.js")
        ⟨[], [], []⟩).2.durable = [] := by
  have h := split_bundle_path_hardcoded_bypass sampleHostEnv ⟨[], [], []⟩
    [] (pstr "proj") (pstr "3") (pstr "1") (pstr "js/app.js")
    (Or.inl rfl) (by decide) (by decide) (by decide) (by decide) (by decide)
  exact ⟨h.1, h.2.2.1.trans (by rfl), h.2.2.2.1, h.2.2.2.2⟩

/-- A scaffold built by appending each fragment as head CSS. -/
def cssScaffold (frags : List PyStr) (force : Bool) : Scaffold :=
  frags.foldl Scaffold.add_head_css_html (Scaffold.init force)

theorem foldl_add_head_css (frags : List PyStr) (h : ∀ f ∈ frags, '\n' ∉ f) :
    ∀ s : Scaffold, frags.foldl Scaffold.add_head_css_html s
      = { s with head_css := s.head_css ++ frags } := by
  induction frags with
  | nil => intro s; simp
  | cons f fs ih =>
    intro s
    rw [List.foldl_cons,
      show Scaffold.add_head_css_html s f = { s with head_css := s.head_css ++ [f] } by
        simp [Scaffold.add_head_css_html,
          splitOnChar_of_not_mem '\n' f (h f (List.mem_cons_self f fs))],
      ih (fun g hg => h g (List.mem_cons_of_mem f hg))]
    simp

theorem cssScaffold_eq (frags : List PyStr) (force : Bool)
    (h : ∀ f ∈ frags, '\n' ∉ f) :
    cssScaffold frags force = ⟨[], frags, [], force⟩ := by
  rw [cssScaffold, foldl_add_head_css frags h (Scaffold.init force)]
  rfl

theorem chunkPadAux_nil (n fuel : Nat) : chunkPadAux n fuel [] = [] := by
  cases fuel <;> rfl

theorem chunkPadAux_step (n fuel : Nat) (l : List PyStr) (h : l ≠ []) :
    chunkPadAux n (fuel + 1) l
      = ((l.take n).map some ++ List.replicate (n - l.length) none)
        :: chunkPadAux n fuel (l.drop n) := by
  cases l with
  | nil => exact absurd rfl h
  | cons a t => rfl

theorem pyFilterTruthy_append (a b : List (Option PyStr)) :
    pyFilterTruthy (a ++ b) = pyFilterTruthy a ++ pyFilterTruthy b := by
  simp [pyFilterTruthy, List.filterMap_append]

theorem pyFilterTruthy_someMap (l : List PyStr) :
    pyFilterTruthy (l.map some) = l.filter (fun s => !s.isEmpty) := by
  induction l with
  | nil => rfl
  | cons a t ih =>
    simp only [List.map_cons, pyFilterTruthy, List.filterMap_cons, List.filter_cons,
      truthyO] at ih ⊢
    by_cases ha : a.isEmpty <;> simp [ha, ih]

theorem pyFilterTruthy_replicate_none (k : Nat) :
    pyFilterTruthy (List.replicate k none) = [] := by
  induction k with
  | zero => rfl
  | succ n ih =>
    simp only [pyFilterTruthy, List.replicate_succ, List.filterMap_cons, truthyO] at ih ⊢
    simp [ih]

theorem pyFilterTruthy_padded (l : List PyStr) (k : Nat)
    (h : ∀ s ∈ l, s ≠ []) :
    pyFilterTruthy (l.map some ++ List.replicate k none) = l := by
  rw [pyFilterTruthy_append, pyFilterTruthy_someMap, pyFilterTruthy_replicate_none,
    List.append_nil]
  rw [List.filter_eq_self]
  intro a ha
  simpa using h a ha



theorem convert_link_shape (link : PyStr) :
    Scaffold.convert_link_to_import link = []
    ∨ ∃ u, Scaffold.convert_link_to_import link = pstr "@import \x22" ++ u ++ pstr "\x22;" := by
  rcases hh : strFind link (pstr "href=") with _ | i
  · exact Or.inl (by simp [Scaffold.convert_link_to_import, hh])
  · rcases hq : link[i + 5]? with _ | q
    · exact Or.inl (by simp [Scaffold.convert_link_to_import, List.get?_eq_getElem?, hh, hq])
    · rcases hr : strFindCharFrom link q (i + 6) with _ | r
      · exact Or.inl (by simp [Scaffold.convert_link_to_import, List.get?_eq_getElem?, hh, hq, hr])
      · exact Or.inr ⟨(link.take r).drop (i + 6),
          by simp [Scaffold.convert_link_to_import, List.get?_eq_getElem?, hh, hq, hr,
            List.append_assoc]⟩

theorem chunkPad_single (l : List PyStr) (k : Nat) (hlen : l.length = k + 1)
    (hk : k + 1 ≤ 25) :
    chunkPad 25 l = [l.map some ++ List.replicate (25 - (k + 1)) none] := by
  have hne : l ≠ [] := by
    intro h0; rw [h0] at hlen; simp at hlen
  rw [chunkPad, hlen, chunkPadAux_step _ _ _ hne,
    List.take_of_length_le (by omega : l.length ≤ 25),
    List.drop_eq_nil_of_le (by omega : l.length ≤ 25), chunkPadAux_nil, hlen]



theorem pyFilterTruthy_some (l : List PyStr) (h : ∀ s ∈ l, s ≠ []) :
    pyFilterTruthy (l.map some) = l := by
  rw [pyFilterTruthy_someMap, List.filter_eq_self]
  intro a ha
  simpa using h a ha

/-- C7.  With `force_normal_include` unset: after appending 25 single-line
style fragments, `header_css_html()` renders exactly the first 20 entries,
and `header_forced_import_css_html_for_IE()` renders the 5 excess
entries' import lines inside a single style block; after appending 50 such
fragments it renders two style blocks of 25 then 5 import lines, joined by a blank
line; with 20 or fewer entries, or with `force_normal_include` set, it
renders the empty string.  (Each sufficiently well-formed fragment converts
to one `@import "...";` line — see `convert_link_shape`.) -/
theorem scaffold_ie_css_chunking
    (f25 f50 fsmall : List PyStr)
    (hl25 : f25.length = 25) (hl50 : f50.length = 50) (hlsmall : fsmall.length ≤ 20)
    (hnl25 : ∀ f ∈ f25, '\n' ∉ f) (hnl50 : ∀ f ∈ f50, '\n' ∉ f)
    (hnlsmall : ∀ f ∈ fsmall, '\n' ∉ f)
    (hc25 : ∀ f ∈ f25.drop 20, Scaffold.convert_link_to_import f ≠ [])
    (hc50 : ∀ f ∈ f50.drop 20, Scaffold.convert_link_to_import f ≠ []) :
    (cssScaffold f25 false).header_css_html = joinS (pstr "\n") (f25.take 20)
    ∧ (cssScaffold f25 false).header_forced_import_css_html_for_IE
      = pstr "<style>\n"
        ++ joinS (pstr "\n") ((f25.drop 20).map Scaffold.convert_link_to_import)
        ++ pstr "\n</style>"
    ∧ ((f25.drop 20).map Scaffold.convert_link_to_import).length = 5
    ∧ (cssScaffold f50 false).header_forced_import_css_html_for_IE
      = (pstr "<style>\n"
         ++ joinS (pstr "\n") (((f50.drop 20).take 25).map Scaffold.convert_link_to_import)
         ++ pstr "\n</style>")
        ++ pstr "\n\n"
        ++ (pstr "<style>\n"
         ++ joinS (pstr "\n") ((f50.drop 45).map Scaffold.convert_link_to_import)
         ++ pstr "\n</style>")
    ∧ (((f50.drop 20).take 25).map Scaffold.convert_link_to_import).length = 25
    ∧ ((f50.drop 45).map Scaffold.convert_link_to_import).length = 5
    ∧ (cssScaffold fsmall false).header_forced_import_css_html_for_IE = []
    ∧ (cssScaffold f25 true).header_forced_import_css_html_for_IE = [] := by
  have hs25 := cssScaffold_eq f25 false hnl25
  have hs25t := cssScaffold_eq f25 true hnl25
  have hs50 := cssScaffold_eq f50 false hnl50
  have hssm := cssScaffold_eq fsmall false hnlsmall
  have himp25 : ∀ s ∈ (f25.drop 20).map Scaffold.convert_link_to_import, s ≠ [] := by
    intro s hs
    obtain ⟨f, hf, rfl⟩ := List.mem_map.mp hs
    exact hc25 f hf
  have hlen5 : ((f25.drop 20).map Scaffold.convert_link_to_import).length = 5 := by
    simp [hl25]
  refine ⟨?_, ?_, hlen5, ?_, ?_, ?_, ?_, ?_⟩
  · rw [hs25]
    simp [Scaffold.header_css_html, MAX_IE_CSS_INCLUDES]
  · rw [hs25]
    have hx : (⟨[], f25, [], false⟩ : Scaffold).has_excess_stylesheets_for_IE = true := by
      simp [Scaffold.has_excess_stylesheets_for_IE, Scaffold.total_css_files, hl25,
        MAX_IE_CSS_INCLUDES]
    have hchunk := chunkPad_single ((f25.drop 20).map Scaffold.convert_link_to_import)
      4 hlen5 (by omega)
    simp only [Scaffold.header_forced_import_css_html_for_IE, hx, if_true,
      MAX_IE_CSS_INCLUDES, MAX_IMPORTS_PER_STYLE_ELEMENT]
    rw [hchunk]
    rw [List.map_cons, List.map_nil, pyFilterTruthy_padded _ _ himp25]
    simp [joinS]
  · rw [hs50]
    have hx : (⟨[], f50, [], false⟩ : Scaffold).has_excess_stylesheets_for_IE = true := by
      simp [Scaffold.has_excess_stylesheets_for_IE, Scaffold.total_css_files, hl50,
        MAX_IE_CSS_INCLUDES]
    have himp50 : ∀ s ∈ (f50.drop 20).map Scaffold.convert_link_to_import, s ≠ [] := by
      intro s hs
      obtain ⟨f, hf, rfl⟩ := List.mem_map.mp hs
      exact hc50 f hf
    have hlen30 : ((f50.drop 20).map Scaffold.convert_link_to_import).length = 30 := by
      simp [hl50]
    have hlendrop : (((f50.drop 20).map Scaffold.convert_link_to_import).drop 25).length = 5 := by
      simp [hl50]
    have hd25ne : ((f50.drop 20).map Scaffold.convert_link_to_import).drop 25 ≠ [] := by
      intro h0
      rw [h0] at hlendrop
      simp at hlendrop
    have hne30 : ((f50.drop 20).map Scaffold.convert_link_to_import) ≠ [] := by
      intro h0
      rw [h0] at hlen30
      simp at hlen30
    have hchunk : chunkPad 25 ((f50.drop 20).map Scaffold.convert_link_to_import)
        = [(((f50.drop 20).map Scaffold.convert_link_to_import).take 25).map some,
           ((((f50.drop 20).map Scaffold.convert_link_to_import).drop 25).map some
             ++ List.replicate 20 none)] := by
      rw [chunkPad, hlen30, show (30 : Nat) = 29 + 1 from rfl,
        chunkPadAux_step _ _ _ hne30, hlen30,
        chunkPadAux_step _ _ _ hd25ne,
        List.take_of_length_le (le_trans (le_of_eq hlendrop) (by omega))]
      rw [hlendrop, List.drop_eq_nil_of_le (le_trans (le_of_eq hlendrop) (by omega)),
        chunkPadAux_nil]
      simp
    simp only [Scaffold.header_forced_import_css_html_for_IE, hx, if_true,
      MAX_IE_CSS_INCLUDES, MAX_IMPORTS_PER_STYLE_ELEMENT]
    rw [hchunk]
    simp only [List.map_cons, List.map_nil]
    rw [pyFilterTruthy_some _ (fun s hs => himp50 s (List.take_subset _ _ hs)),
      pyFilterTruthy_padded _ _ (fun s hs => himp50 s (List.drop_subset _ _ hs))]
    simp [joinS]
  · simp [hl50]
  · simp [hl50]
  · rw [hssm]
    have hx : (⟨[], fsmall, [], false⟩ : Scaffold).has_excess_stylesheets_for_IE = false := by
      simp [Scaffold.has_excess_stylesheets_for_IE, Scaffold.total_css_files,
        MAX_IE_CSS_INCLUDES]
      omega
    simp [Scaffold.header_forced_import_css_html_for_IE, hx]
  · rw [hs25t]
    have hx : (⟨[], f25, [], true⟩ : Scaffold).has_excess_stylesheets_for_IE = false := by
      simp [Scaffold.has_excess_stylesheets_for_IE]
    simp [Scaffold.header_forced_import_css_html_for_IE, hx]



/-- A sample single-line stylesheet link fragment with a distinct href. -/
def ieFrag (i : Nat) : PyStr :=
  pstr "<link href=\x22u" ++ List.replicate i 'a' ++ pstr "\x22 rel=\x22x\x22>"

/-- Witness for C7 on 25, 50 and 10 concrete link fragments. -/
theorem scaffold_ie_css_chunking_witness :
    (cssScaffold ((List.range 25).map ieFrag) false).header_css_html
      = joinS (pstr "\n") (((List.range 25).map ieFrag).take 20)
    ∧ (cssScaffold ((List.range 25).map ieFrag) false).header_forced_import_css_html_for_IE
      = pstr "<style>\n"
        ++ joinS (pstr "\n")
            ((((List.range 25).map ieFrag).drop 20).map Scaffold.convert_link_to_import)
        ++ pstr "\n</style>"
    ∧ (cssScaffold ((List.range 50).map ieFrag) false).header_forced_import_css_html_for_IE
      = (pstr "<style>\n"
         ++ joinS (pstr "\n")
             (((((List.range 50).map ieFrag).drop 20).take 25).map Scaffold.convert_link_to_import)
         ++ pstr "\n</style>")
        ++ pstr "\n\n"
        ++ (pstr "<style>\n"
         ++ joinS (pstr "\n")
             ((((List.range 50).map ieFrag).drop 45).map Scaffold.convert_link_to_import)
         ++ pstr "\n</style>")
    ∧ (cssScaffold ((List.range 10).map ieFrag) false).header_forced_import_css_html_for_IE = []
    ∧ (cssScaffold ((List.range 25).map ieFrag) true).header_forced_import_css_html_for_IE = [] := by
  have h := scaffold_ie_css_chunking ((List.range 25).map ieFrag)
    ((List.range 50).map ieFrag) ((List.range 10).map ieFrag)
    (by decide) (by decide) (by decide) (by decide) (by decide) (by decide)
    (by decide) (by decide)
  exact ⟨h.1, h.2.1, h.2.2.2.1, h.2.2.2.2.2.2.1, h.2.2.2.2.2.2.2⟩

theorem subSrcHrefAux_nil (dom : PyStr) (fuel : Nat) : subSrcHrefAux dom fuel [] = [] := by
  cases fuel <;> rfl

theorem tryMatchKey_head (dom key : PyStr) (q : Char) (val post : PyStr)
    (hq : isQuoteChar q = true) (hvne : val ≠ [])
    (hval : ∀ c ∈ val, isQuoteChar c = false) :
    tryMatchKey dom key (key ++ q :: (val ++ q :: post))
      = some (key ++ q :: (pstr "//" ++ dom ++ val ++ [q]), post) := by
  have hpre : key.isPrefixOf (key ++ q :: (val ++ q :: post)) = true := by
    rw [List.isPrefixOf_iff_prefix]
    exact List.prefix_append _ _
  have hdrop : (key ++ q :: (val ++ q :: post)).drop key.length = q :: (val ++ q :: post) :=
    List.drop_left _ _
  have hrun : (val ++ q :: post).takeWhile (fun c => !isQuoteChar c) = val := by
    refine takeWhile_append_stop _ _ _ _ ?_ (by simp [hq])
    intro c hc
    simp [hval c hc]
  have hvempty : val.isEmpty = false := by
    cases val with
    | nil => exact absurd rfl hvne
    | cons a t => rfl
  have hdrop2 : (val ++ q :: post).drop val.length = q :: post := List.drop_left _ _
  simp only [tryMatchKey, hpre, if_true, hdrop, hq, hrun, hvempty, Bool.false_eq_true,
    if_false, hdrop2, if_pos rfl]

theorem src_not_prefix_href (X : PyStr) :
    (pstr "src=").isPrefixOf (pstr "href=" ++ X) = false := by
  rfl

theorem tryMatchSrcHref_head (dom key : PyStr) (q : Char) (val post : PyStr)
    (hkey : key = pstr "src=" ∨ key = pstr "href=")
    (hq : isQuoteChar q = true) (hvne : val ≠ [])
    (hval : ∀ c ∈ val, isQuoteChar c = false) :
    tryMatchSrcHref dom (key ++ q :: (val ++ q :: post))
      = some (key ++ q :: (pstr "//" ++ dom ++ val ++ [q]), post) := by
  rcases hkey with rfl | rfl
  · simp only [tryMatchSrcHref, tryMatchKey_head dom (pstr "src=") q val post hq hvne hval]
  · have hsrc : tryMatchKey dom (pstr "src=") (pstr "href=" ++ q :: (val ++ q :: post)) = none := by
      simp only [tryMatchKey, src_not_prefix_href, Bool.false_eq_true, if_false]
    simp only [tryMatchSrcHref, hsrc,
      tryMatchKey_head dom (pstr "href=") q val post hq hvne hval]

theorem tryMatchKey_rest_lt (dom key s : PyStr) (p : PyStr × PyStr)
    (h : tryMatchKey dom key s = some p) :
    p.2.length < s.length := by
  unfold tryMatchKey at h
  split at h
  next hpre =>
    rcases hdrop : s.drop key.length with _ | ⟨q, rest⟩ <;> rw [hdrop] at h <;> dsimp only at h
    · exact absurd h (by simp)
    · have hslen : s.length = key.length + rest.length + 1 := by
        have h1 : (s.drop key.length).length = s.length - key.length := List.length_drop _ _
        rw [hdrop] at h1
        have h2 : key.length ≤ s.length := by
          rw [List.isPrefixOf_iff_prefix] at hpre
          exact hpre.length_le
        simp only [List.length_cons] at h1
        omega
      split at h
      next hqc =>
        split at h
        next => exact absurd h (by simp)
        next hrun =>
          rcases hdrop2 : rest.drop ((rest.takeWhile (fun c => !isQuoteChar c)).length)
              with _ | ⟨q2, rest2⟩ <;> rw [hdrop2] at h <;> dsimp only at h
          · exact absurd h (by simp)
          · have hlen2 : (rest.drop ((rest.takeWhile (fun c => !isQuoteChar c)).length)).length
                ≤ rest.length := by
              rw [List.length_drop]
              omega
            rw [hdrop2] at hlen2
            split at h
            next =>
              have hp2 : p.2 = rest2 := by
                simp only [Option.some.injEq] at h
                rw [← h]
              rw [hp2]
              simp only [List.length_cons] at hlen2
              omega
            next => exact absurd h (by simp)
      next => exact absurd h (by simp)
  next => exact absurd h (by simp)

theorem tryMatchSrcHref_rest_lt (dom s : PyStr) (p : PyStr × PyStr)
    (h : tryMatchSrcHref dom s = some p) : p.2.length < s.length := by
  unfold tryMatchSrcHref at h
  rcases hs : tryMatchKey dom (pstr "src=") s with _ | p1 <;> rw [hs] at h
  · exact tryMatchKey_rest_lt dom (pstr "href=") s p h
  · simp only [Option.some.injEq] at h
    subst h
    exact tryMatchKey_rest_lt dom (pstr "src=") s p1 hs

theorem subSrcHrefAux_congr (dom : PyStr) :
    ∀ (k : Nat) (s : PyStr), s.length ≤ k →
      ∀ fuel fuel', s.length ≤ fuel → s.length ≤ fuel' →
        subSrcHrefAux dom fuel s = subSrcHrefAux dom fuel' s := by
  intro k
  induction k with
  | zero =>
    intro s hs fuel fuel' _ _
    have : s = [] := List.length_eq_zero.mp (Nat.le_zero.mp hs)
    subst this
    rw [subSrcHrefAux_nil, subSrcHrefAux_nil]
  | succ k ih =>
    intro s hs fuel fuel' h1 h2
    cases s with
    | nil => rw [subSrcHrefAux_nil, subSrcHrefAux_nil]
    | cons c cs =>
      obtain ⟨f1, rfl⟩ : ∃ f1, fuel = f1 + 1 := by
        cases fuel with
        | zero => simp at h1
        | succ f => exact ⟨f, rfl⟩
      obtain ⟨f2, rfl⟩ : ∃ f2, fuel' = f2 + 1 := by
        cases fuel' with
        | zero => simp at h2
        | succ f => exact ⟨f, rfl⟩
      simp only [subSrcHrefAux]
      rcases hm : tryMatchSrcHref dom (c :: cs) with _ | p <;> dsimp only
      · have hcs : cs.length ≤ k := by
          simp only [List.length_cons] at hs
          omega
        rw [ih cs hcs f1 f2 (by simp only [List.length_cons] at h1; omega)
          (by simp only [List.length_cons] at h2; omega)]
      · have hplt := tryMatchSrcHref_rest_lt dom (c :: cs) p hm
        simp only [List.length_cons] at hplt hs h1 h2
        rw [ih p.2 (by omega) f1 f2 (by omega) (by omega)]

theorem subSrcHrefAux_skip (dom : PyStr) :
    ∀ (pre : PyStr) (rest : PyStr) (fuel : Nat), (pre ++ rest).length ≤ fuel →
      (∀ n, n < pre.length → tryMatchSrcHref dom ((pre ++ rest).drop n) = none) →
      subSrcHrefAux dom fuel (pre ++ rest)
        = pre ++ subSrcHrefAux dom (fuel - pre.length) rest := by
  intro pre
  induction pre with
  | nil =>
    intro rest fuel _ _
    simp
  | cons c pre2 ih =>
    intro rest fuel hlen hnone
    obtain ⟨f, rfl⟩ : ∃ f, fuel = f + 1 := by
      cases fuel with
      | zero =>
        exfalso
        simp only [List.cons_append, List.length_cons] at hlen
        omega
      | succ f => exact ⟨f, rfl⟩
    have h0 := hnone 0 (by simp)
    simp only [List.drop_zero, List.cons_append] at h0
    simp only [List.cons_append, subSrcHrefAux]
    rw [h0]
    have hlen2 : (pre2 ++ rest).length ≤ f := by
      simp only [List.cons_append, List.length_cons] at hlen
      omega
    have hrec := ih rest f hlen2 (fun n hn => by
      have := hnone (n + 1) (by simp only [List.length_cons]; omega)
      simpa using this)
    rw [hrec]
    have hfuel : f + 1 - (c :: pre2 : PyStr).length = f - pre2.length := by
      simp only [List.length_cons]
      omega
    rw [hfuel]



/-- C8 (amended).  `_append_static_domain_to_links` rewrites a `src=`/`href=`
attribute whose quoted value is non-empty and free of quote characters by
prefixing `//<domain>` to the value, preserving the quote character; a prefix
of the input in which the pattern does not match anywhere is copied
unchanged, and scanning continues after the rewritten attribute.  (As the
counterexample shows, attributes with an empty value — or with the other
quote character inside the value — are *not* rewritten, which corrects the
claim's "each src= or href= attribute whose value is enclosed in quotes".) -/
theorem append_static_domain_rewrites (dom pre key : PyStr) (q : Char) (val post : PyStr)
    (hkey : key = pstr "src=" ∨ key = pstr "href=")
    (hq : isQuoteChar q = true)
    (hvne : val ≠ []) (hval : ∀ c ∈ val, isQuoteChar c = false)
    (hpre : ∀ n, n < pre.length →
      tryMatchSrcHref dom ((pre ++ key ++ q :: val ++ q :: post).drop n) = none) :
    append_static_domain_to_links dom (pre ++ key ++ q :: val ++ q :: post)
      = pre ++ key ++ q :: (pstr "//" ++ dom ++ val) ++ q ::
          append_static_domain_to_links dom post := by
  have hrest : tryMatchSrcHref dom (key ++ q :: (val ++ q :: post))
      = some (key ++ q :: (pstr "//" ++ dom ++ val ++ [q]), post) :=
    tryMatchSrcHref_head dom key q val post hkey hq hvne hval
  have hne : (key ++ q :: (val ++ q :: post)) ≠ [] := by
    rcases hkey with rfl | rfl <;> simp [pstr]
  have hform : pre ++ key ++ q :: val ++ q :: post
      = pre ++ (key ++ q :: (val ++ q :: post)) := by
    simp [List.append_assoc]
  rw [hform] at hpre ⊢
  rw [append_static_domain_to_links,
    subSrcHrefAux_skip dom pre (key ++ q :: (val ++ q :: post)) _ (le_refl _) hpre]
  have hlen : (pre ++ (key ++ q :: (val ++ q :: post))).length - pre.length
      = (key ++ q :: (val ++ q :: post)).length := by
    simp [List.length_append]
  rw [hlen]
  obtain ⟨f, hf⟩ : ∃ f, (key ++ q :: (val ++ q :: post)).length = f + 1 := by
    refine ⟨(key ++ q :: (val ++ q :: post)).length - 1, ?_⟩
    have : 0 < (key ++ q :: (val ++ q :: post)).length := List.length_pos.mpr hne
    omega
  have hfge : post.length ≤ f := by
    have : (key ++ q :: (val ++ q :: post)).length
        = key.length + (val.length + (post.length + 2)) := by
      simp [List.length_append]
      omega
    omega
  rw [hf]
  simp only [subSrcHrefAux]
  rw [hrest]
  dsimp only
  rw [subSrcHrefAux_congr dom post.length post (le_refl _) f post.length hfge (le_refl _)]
  rw [show subSrcHrefAux dom post.length post = append_static_domain_to_links dom post from rfl]
  simp [List.append_assoc]



/-- C8 counterexample.  An `src` attribute with an empty quoted value (and an
`href` whose single-quoted value contains a double quote) is left completely
unchanged by the substitution — no `//<domain>` is prefixed — contradicting
the claim that every quoted `src=`/`href=` value is rewritten. -/
theorem append_static_domain_counterexample :
    append_static_domain_to_links (pstr "cdn.example.com") (pstr "<img src=\x22\x22><a href='a\x22b'>")
      = pstr "<img src=\x22\x22><a href='a\x22b'>"
    ∧ append_static_domain_to_links (pstr "cdn.example.com") (pstr "<img src=\x22\x22>")
      ≠ pstr "<img src=\x22//cdn.example.com\x22>" :=
  ⟨rfl, by decide⟩

/-- Witness for C8's amended theorem at a concrete attribute. -/
theorem append_static_domain_rewrites_witness :
    append_static_domain_to_links (pstr "cdn") (pstr "<img src=\x22/a.js\x22> x")
      = pstr "<img src=\x22//cdn/a.js\x22> x" := by
  have h := append_static_domain_rewrites (pstr "cdn") (pstr "<img ") (pstr "src=") '\x22'
    (pstr "/a.js") (pstr "> x") (Or.inl rfl) (by decide) (by decide) (by decide) (by decide)
  have hl : append_static_domain_to_links (pstr "cdn") (pstr "<img src=\x22/a.js\x22> x")
      = append_static_domain_to_links (pstr "cdn")
        (pstr "<img " ++ pstr "src=" ++ '\x22' :: pstr "/a.js" ++ '\x22' :: pstr "> x") := rfl
  refine hl.trans (h.trans ?_)
  rfl

end AssetBender
